import Mathlib

/-!
Shallow embedding of `mushroom_rl/core/serialization.py` (class `Serializable`).

Modelling conventions:

* Python runtime values are modelled by the inductive type `Value`.  The Python
  sentinel `None` (the "defined absence marker" of the spec) is `Value.vnone`;
  numpy arrays and torch tensors are modelled abstractly as integer lists
  carrying their payload; a `Serializable` instance is `Value.vobj typeId fields`
  where `fields` is its `__dict__` as an insertion-ordered association list.
* Archive entries abstract the byte payload to the decoded value, tagged by the
  byte format that produced it: `EntryData.pk` is a `pickle.dumps` payload,
  `EntryData.js` is the UTF-8 JSON text written by `_save_json`, `EntryData.np`
  a `.npy` blob, `EntryData.pt` a torch blob.  The formats are mutually
  unreadable (e.g. `pickle.load` fails on JSON text), which the load functions
  reflect by failing on a mismatched tag.
* Python exceptions are modelled by `PErr`.  Recursion through nested objects is
  made total with an explicit fuel parameter (`PErr.fuelExhausted` is a
  modelling artifact that never occurs for sufficient fuel); the fuel is the
  first argument and recursion is structural on it, so all functions reduce by
  `rfl` on concrete inputs.
* The source compares `method[-1] is '!'` using object identity on a
  one-character string; CPython interns those, so it behaves as equality and is
  modelled as character equality.
-/

namespace MushroomSer

/-- Python runtime values relevant to the serialization protocol. -/
inductive Value : Type where
  | vnone : Value
  | vbool : Bool → Value
  | vint : Int → Value
  | vstr : String → Value
  | vlist : List Value → Value
  | vdict : List (String × Value) → Value
  | vtype : String → Value
  | vnumpy : List Int → Value
  | vtorch : List Int → Value
  | vobj : String → List (String × Value) → Value

/-- Python exceptions raised by the serialization code, plus the fuel marker. -/
inductive PErr : Type where
  | notImplemented : String → PErr
  | attributeError : String → PErr
  | keyError : String → PErr
  | typeError : PErr
  | indexError : PErr
  | badEntryData : PErr
  | encodingError : PErr
  | fuelExhausted : PErr
  deriving DecidableEq, Repr

/-- Payload of one archive entry, tagged by the byte format that wrote it. -/
inductive EntryData : Type where
  | pk : Value → EntryData
  | np : List Int → EntryData
  | pt : List Int → EntryData
  | js : Value → EntryData

/-- One named entry of the zip archive. -/
abbrev Entry : Type := String × EntryData

/-- A zip archive: the entries in the order they were written. -/
abbrev Archive : Type := List Entry

/-- Lookup in a string-keyed association list (Python dict access). -/
def dget {α : Type} (d : List (String × α)) (k : String) : Option α :=
  (d.find? (fun p => p.1 == k)).map (fun p => p.2)

/-- Update of a string-keyed association list (Python dict item assignment):
overwrite in place if the key exists, else append. -/
def dset {α : Type} : List (String × α) → String → α → List (String × α)
  | [], k, v => [(k, v)]
  | (k', v') :: rest, k, v =>
      if k' == k then (k, v) :: rest else (k', v') :: dset rest k v

/-- Attribute access `getattr(self, att)` on an object's `__dict__`. -/
def getattrOpt (fields : List (String × Value)) (att : String) : Option Value :=
  dget fields att

/-- The value `getattr(self, att) if hasattr(self, att) else None` computed by
`save_zip` before encoding an attribute. -/
def getattrD (fields : List (String × Value)) (att : String) : Value :=
  (getattrOpt fields att).getD Value.vnone

/-- Attribute assignment `setattr(obj, att, v)`. -/
def setattr (fields : List (String × Value)) (att : String) (v : Value) :
    List (String × Value) :=
  dset fields att v

/-- The helper `Serializable._append_folder`: `folder + '/' + name` when
`folder` is non-empty (truthy), else `name`. -/
def appendFolder (folder name : String) : String :=
  if folder = "" then name else folder ++ "/" ++ name

/-- The last character of a Python string; `none` models the `IndexError` of
`method[-1]` on an empty string. -/
def strLast (s : String) : Option Char :=
  s.data.getLast?

/-- Python `method[:-1]`. -/
def dropLastStr (s : String) : String :=
  String.mk s.data.dropLast

/-- The codec name with a trailing full-save-only marker removed:
`method[:-1] if method[-1] is '!' else method`. -/
def stripBang (m : String) : String :=
  if strLast m = some '!' then dropLastStr m else m

/-- Extraction of `_save_attributes` as a string-to-string dict, as assumed by
the `for att, method in ...items()` loops (any other shape is a type error in
the source). -/
def asStrPairs : List (String × Value) → Option (List (String × String))
  | [] => some []
  | (k, Value.vstr s) :: rest => (asStrPairs rest).map (fun r => (k, s) :: r)
  | _ => none

/-- Interpretation of a `Value` as the string-valued dict `_save_attributes`. -/
def asStrDict : Value → Option (List (String × String))
  | Value.vdict kvs => asStrPairs kvs
  | _ => none

/-- Lookup of an entry by name in the archive (`zip_file.open(name, 'r')`). -/
def zipLookup (z : Archive) (p : String) : Option EntryData :=
  (z.find? (fun e => e.1 == p)).map (fun e => e.2)

/-- Membership test `name in zip_file.namelist()`. -/
def zipHas (z : Archive) (p : String) : Bool :=
  z.any (fun e => e.1 == p)

/-- Codec names `m` for which `hasattr(self, '_save_' + m)` holds in the source
class: exactly the five `_save_*` static methods. -/
def saveMethods : List String := ["pickle", "numpy", "torch", "json", "mushroom"]

/-- Codec names `m` for which `getattr(cls, '_load_' + m)` resolves in the
source class: exactly the five `_load_*` static methods. -/
def loadMethods : List String := ["pickle", "numpy", "torch", "json", "mushroom"]

/-- Test for the Python `is None` comparison. -/
def isNoneV : Value → Bool
  | Value.vnone => true
  | _ => false

/-- Fueled JSON-representability test: `json.dumps` succeeds exactly on nested
structures of `None`, booleans, numbers, strings, lists and string-keyed dicts.
Fuel only bounds the nesting depth (a modelling artifact). -/
def jsonableF : Nat → Value → Bool
  | 0, _ => false
  | _ + 1, Value.vnone => true
  | _ + 1, Value.vbool _ => true
  | _ + 1, Value.vint _ => true
  | _ + 1, Value.vstr _ => true
  | n + 1, Value.vlist xs => xs.all (fun v => jsonableF n v)
  | n + 1, Value.vdict kvs => kvs.all (fun p => jsonableF n p.2)
  | _ + 1, _ => false

/-- Type of the recursive save entry point threaded through one level of
`save_zip` (the call `obj.save_zip(zip_file, full_save, folder)`). -/
abbrev SaveRec : Type := String → List (String × Value) → Bool → String → Except PErr Archive

/-- Type of the recursive load entry point (`Serializable.load_zip`). -/
abbrev LoadRec : Type := Archive → String → Except PErr Value

/-- One codec dispatch of `save_zip`: the call
`save_method(zip_file, file_name, attribute, full_save=full_save, folder=folder)`
for a registered codec name `m'`, producing the entries it writes.
`_save_pickle`, `_save_numpy`, `_save_torch` and `_save_json` each write one
entry at `_append_folder(folder, name)`; `_save_mushroom` recurses into
`obj.save_zip` with the sub-folder `_append_folder(folder, name)`. -/
def saveMethodW (jfuel : Nat) (recSave : SaveRec) (m' name : String) (v : Value)
    (full : Bool) (folder : String) : Except PErr Archive :=
  if m' = "pickle" then
    Except.ok [(appendFolder folder name, EntryData.pk v)]
  else if m' = "numpy" then
    match v with
    | Value.vnumpy d => Except.ok [(appendFolder folder name, EntryData.np d)]
    | _ => Except.error PErr.encodingError
  else if m' = "torch" then
    match v with
    | Value.vtorch d => Except.ok [(appendFolder folder name, EntryData.pt d)]
    | _ => Except.error PErr.encodingError
  else if m' = "json" then
    if jsonableF jfuel v then Except.ok [(appendFolder folder name, EntryData.js v)]
    else Except.error PErr.encodingError
  else if m' = "mushroom" then
    match v with
    | Value.vobj t2 f2 => recSave t2 f2 full (appendFolder folder name)
    | _ => Except.error (PErr.attributeError "save_zip")
  else Except.error (PErr.notImplemented m')

/-- One iteration of the attribute loop of `save_zip` for `(att, m)`:

```
if method[-1] is not '!' or full_save:
    method = method[:-1] if method[-1] is '!' else method
    attribute = getattr(self, att) if hasattr(self, att) else None
    if attribute is not None:
        if hasattr(self, '_save_{}'.format(method)): ... dispatch ...
        else: raise NotImplementedError(...)
```
-/
def saveOneAttrW (jfuel : Nat) (recSave : SaveRec) (fields : List (String × Value))
    (full : Bool) (folder att m : String) : Except PErr Archive :=
  match strLast m with
  | none => Except.error PErr.indexError
  | some c =>
    if c ≠ '!' ∨ full = true then
      let m' := if c = '!' then dropLastStr m else m
      let v := getattrD fields att
      if isNoneV v = true then Except.ok []
      else if saveMethods.contains m' then
        saveMethodW jfuel recSave m' (att ++ "." ++ m') v full folder
      else Except.error (PErr.notImplemented m')
    else Except.ok []

/-- The whole attribute loop of `save_zip`, concatenating the written entries
in iteration order. -/
def saveAttrsW (jfuel : Nat) (recSave : SaveRec) (fields : List (String × Value))
    (full : Bool) (folder : String) : List (String × String) → Except PErr Archive
  | [] => Except.ok []
  | (att, m) :: rest =>
    match saveOneAttrW jfuel recSave fields full folder att m with
    | Except.error e => Except.error e
    | Except.ok a1 =>
      match saveAttrsW jfuel recSave fields full folder rest with
      | Except.error e => Except.error e
      | Except.ok a2 => Except.ok (a1 ++ a2)

/-- One level of `Serializable.save_zip`: build `config_data` from `type(self)`
and `self._save_attributes`, write it with `_save_pickle` under
`_append_folder(folder, 'config')`, then run the attribute loop. -/
def saveLevel (jfuel : Nat) (recSave : SaveRec) (tid : String)
    (fields : List (String × Value)) (full : Bool) (folder : String) :
    Except PErr Archive :=
  match getattrOpt fields "_save_attributes" with
  | none => Except.error (PErr.attributeError "_save_attributes")
  | some sa =>
    match asStrDict sa with
    | none => Except.error PErr.typeError
    | some attrs =>
      match saveAttrsW jfuel recSave fields full folder attrs with
      | Except.error e => Except.error e
      | Except.ok rest =>
        Except.ok ((appendFolder folder "config",
          EntryData.pk (Value.vdict
            [("type", Value.vtype tid), ("save_attributes", sa)])) :: rest)

/-- `Serializable.save_zip`, made total by fuel (structural on the fuel). -/
def saveZip : Nat → SaveRec
  | 0, _, _, _, _ => Except.error PErr.fuelExhausted
  | n + 1, tid, fields, full, folder => saveLevel n (saveZip n) tid fields full folder

/-- Reading and unpacking the config entry in `load_zip`:
`object_type, save_attributes = cls._load_pickle(zip_file, config_path).values()`
followed by `object_type.__new__(object_type)` (so the first dict value must be
a type).  A missing entry is a `KeyError`; a non-pickle payload fails to
unpickle; any other shape is a type/unpack error. -/
def loadConfigEntry (z : Archive) (p : String) : Except PErr (String × Value) :=
  match zipLookup z p with
  | none => Except.error (PErr.keyError p)
  | some (EntryData.pk (Value.vdict [(_, Value.vtype tid), (_, sa)])) =>
      Except.ok (tid, sa)
  | some (EntryData.pk _) => Except.error PErr.typeError
  | some _ => Except.error PErr.badEntryData

/-- One codec dispatch of `load_zip`: `load_method(zip_file, file_name)` for the
stripped codec name `m'`; `_load_mushroom` recurses into `load_zip` with the
entry name as the new folder. -/
def loadMethodW (recLoad : LoadRec) (z : Archive) (name m' : String) :
    Except PErr Value :=
  if m' = "pickle" then
    match zipLookup z name with
    | some (EntryData.pk v) => Except.ok v
    | some _ => Except.error PErr.badEntryData
    | none => Except.error (PErr.keyError name)
  else if m' = "numpy" then
    match zipLookup z name with
    | some (EntryData.np d) => Except.ok (Value.vnumpy d)
    | some _ => Except.error PErr.badEntryData
    | none => Except.error (PErr.keyError name)
  else if m' = "torch" then
    match zipLookup z name with
    | some (EntryData.pt d) => Except.ok (Value.vtorch d)
    | some _ => Except.error PErr.badEntryData
    | none => Except.error (PErr.keyError name)
  else if m' = "json" then
    match zipLookup z name with
    | some (EntryData.js v) => Except.ok v
    | some _ => Except.error PErr.badEntryData
    | none => Except.error (PErr.keyError name)
  else if m' = "mushroom" then recLoad z name
  else Except.error (PErr.attributeError ("_load_" ++ m'))

/-- The attribute loop of `load_zip`, accumulating `setattr` assignments on the
bare instance:

```
for att, method in save_attributes.items():
    method = method[:-1] if method[-1] is '!' else method
    file_name = Serializable._append_folder(folder, '{}.{}'.format(att, method))
    if file_name in zip_file.namelist() or method == 'mushroom':
        load_method = getattr(cls, '_load_{}'.format(method))
        att_val = load_method(zip_file, file_name)
        setattr(loaded_object, att, att_val)
    else:
        setattr(loaded_object, att, None)
```
-/
def loadAttrsW (recLoad : LoadRec) (z : Archive) (folder : String) :
    List (String × String) → List (String × Value) →
    Except PErr (List (String × Value))
  | [], acc => Except.ok acc
  | (att, m) :: rest, acc =>
    match strLast m with
    | none => Except.error PErr.indexError
    | some c =>
      let m' := if c = '!' then dropLastStr m else m
      let fileName := appendFolder folder (att ++ "." ++ m')
      if zipHas z fileName = true ∨ m' = "mushroom" then
        if loadMethods.contains m' then
          match loadMethodW recLoad z fileName m' with
          | Except.error e => Except.error e
          | Except.ok v => loadAttrsW recLoad z folder rest (setattr acc att v)
        else Except.error (PErr.attributeError ("_load_" ++ m'))
      else loadAttrsW recLoad z folder rest (setattr acc att Value.vnone)

/-- One level of `Serializable.load_zip`: read the config, allocate a bare
instance (`object_type.__new__`, i.e. an empty `__dict__`), run the attribute
loop, then `_post_load` (a no-op in the base class). -/
def loadLevel (recLoad : LoadRec) (z : Archive) (folder : String) :
    Except PErr Value :=
  match loadConfigEntry z (appendFolder folder "config") with
  | Except.error e => Except.error e
  | Except.ok (tid, sa) =>
    match asStrDict sa with
    | none => Except.error PErr.typeError
    | some attrs =>
      match loadAttrsW recLoad z folder attrs [] with
      | Except.error e => Except.error e
      | Except.ok fields => Except.ok (Value.vobj tid fields)

/-- `Serializable.load_zip`, made total by fuel (structural on the fuel). -/
def loadZip : Nat → LoadRec
  | 0, _, _ => Except.error PErr.fuelExhausted
  | n + 1, z, folder => loadLevel (loadZip n) z folder

/-- `Serializable.save` on an object value: a fresh archive written by
`save_zip` at the top folder (filesystem path handling elided). -/
def save (n : Nat) (x : Value) (full : Bool) : Except PErr Archive :=
  match x with
  | Value.vobj tid fields => saveZip n tid fields full ""
  | _ => Except.error (PErr.attributeError "save_zip")

/-- `Serializable.load` of a fresh archive produced by one save call. -/
def load (n : Nat) (z : Archive) : Except PErr Value :=
  loadZip n z ""

/-- The composite `load(save(x, full_save))` used by the round-trip claims. -/
def roundTrip (n : Nat) (x : Value) (full : Bool) : Except PErr Value :=
  match save n x full with
  | Except.error e => Except.error e
  | Except.ok ar => load n ar

/-- `Serializable._add_save_attr` acting on the optional current value of
`self._save_attributes` (absent before the first call):

```
if not hasattr(self, '_save_attributes'):
    self._save_attributes = dict(_save_attributes='json')
self._save_attributes.update(attr_dict)
```
-/
def addSaveAttr (cur : Option (List (String × String)))
    (attrDict : List (String × String)) : List (String × String) :=
  let base := cur.getD [("_save_attributes", "json")]
  attrDict.foldl (fun b p => dset b p.1 p.2) base

/-- The `_save_attributes` state after a sequence of `_add_save_attr` calls on
a fresh object. -/
def runDecls (calls : List (List (String × String))) :
    Option (List (String × String)) :=
  calls.foldl (fun st d => some (addSaveAttr st d)) none

/-- `save_zip` with the object state threaded through explicitly.  The source
body of `save`/`save_zip` contains no assignment to any attribute of `self`
(it only reads attributes and writes zip entries), so the faithful
state-threaded form returns the object component unchanged next to the
archive result. -/
def saveZipSt (n : Nat) (tid : String) (fields : List (String × Value))
    (full : Bool) (folder : String) :
    (String × List (String × Value)) × Except PErr Archive :=
  ((tid, fields), saveZip n tid fields full folder)

/-- Attribute names that keep distinct attributes' archive entry names
disjoint: no dot in the name.  Python attribute names declared through the
`**attr_dict` keywords of `_add_save_attr` are identifiers and satisfy this. -/
def validAttrName (s : String) : Bool :=
  s.data.all (fun c => c ≠ '.')

/-- Test whether an optional archive payload is a structured-config (JSON
text) payload. -/
def isJsEntry : Option EntryData → Bool
  | some (EntryData.js _) => true
  | _ => false

/-- Observational equivalence between an object value and its reloaded shadow
under save mode `full`, per codec semantics: values restored by the data
codecs are literally equal (covered by `refl`), while a reloaded nested
object agrees per declared attribute, recursively — attributes that were
saved (selected by the full-save mode and present) are related recursively,
and all other declared attributes are the absence marker on the reloaded
side.  `PObsEq true x y` is the round-trip equality notion of the spec. -/
inductive PObsEq : Bool → Value → Value → Prop where
  | refl (full : Bool) (v : Value) : PObsEq full v v
  | obj (full : Bool) (t : String) (fs1 fs2 : List (String × Value))
      (sa : Value) (attrs : List (String × String))
      (hsa : getattrOpt fs1 "_save_attributes" = some sa)
      (hattrs : asStrDict sa = some attrs)
      (hrel : ∀ p ∈ attrs, ∀ c, strLast p.2 = some c →
        ((c ≠ '!' ∨ full = true) ∧ getattrD fs1 p.1 ≠ Value.vnone) →
        PObsEq full (getattrD fs1 p.1) (getattrD fs2 p.1))
      (habs : ∀ p ∈ attrs, ∀ c, strLast p.2 = some c →
        ¬((c ≠ '!' ∨ full = true) ∧ getattrD fs1 p.1 ≠ Value.vnone) →
        getattrD fs2 p.1 = Value.vnone) :
      PObsEq full (Value.vobj t fs1) (Value.vobj t fs2)

/-- Well-formedness of a serializable object for save mode `full`: its
declared-attributes dict exists and is string-valued with distinct,
dot-free attribute names, and every attribute declared with the
nested-object codec is selected by the save mode, holds an actual nested
object, and is recursively well formed.  These assumptions mirror what the
protocol guarantees for objects built through `_add_save_attr`. -/
inductive GoodObj : Bool → Value → Prop where
  | mk (full : Bool) (tid : String) (fields : List (String × Value))
      (sa : Value) (attrs : List (String × String))
      (hsa : getattrOpt fields "_save_attributes" = some sa)
      (hattrs : asStrDict sa = some attrs)
      (hnodup : (attrs.map Prod.fst).Nodup)
      (hnames : ∀ p ∈ attrs, validAttrName p.1 = true)
      (hmushProc : ∀ p ∈ attrs, stripBang p.2 = "mushroom" →
        strLast p.2 ≠ some '!' ∨ full = true)
      (hmushGood : ∀ p ∈ attrs, stripBang p.2 = "mushroom" →
        GoodObj full (getattrD fields p.1)) :
      GoodObj full (Value.vobj tid fields)

/-- What loading gives back for one declared attribute `p` after a save under
mode `full` produced archive `ar` at `folder`: a saved attribute (selected by
the mode and present) is restored — literally equal for the data codecs,
observationally equal for the nested-object codec — while a skipped or
absent attribute has no archive entry and reloads as the absence marker. -/
def AttrLoadConcl (full : Bool) (folder : String)
    (fields fields' : List (String × Value)) (ar : Archive)
    (p : String × String) : Prop :=
  ∀ c, strLast p.2 = some c →
    (((c ≠ '!' ∨ full = true) ∧ getattrD fields p.1 ≠ Value.vnone) →
      (stripBang p.2 ≠ "mushroom" → getattrOpt fields' p.1 = some (getattrD fields p.1)) ∧
      (stripBang p.2 = "mushroom" → ∃ w, getattrOpt fields' p.1 = some w ∧
        PObsEq full (getattrD fields p.1) w)) ∧
    (¬((c ≠ '!' ∨ full = true) ∧ getattrD fields p.1 ≠ Value.vnone) →
      getattrOpt fields' p.1 = some Value.vnone ∧
      zipLookup ar (appendFolder folder (p.1 ++ "." ++ stripBang p.2)) = none)

/-! Concrete example objects used by the witness and counterexample
theorems. -/

/-- Declared attributes of the example nested object. -/
def exSaC : Value :=
  Value.vdict [("_save_attributes", Value.vstr "json"), ("t", Value.vstr "torch")]

/-- An example nested serializable object with one torch attribute. -/
def exChild : Value :=
  Value.vobj "Child" [("_save_attributes", exSaC), ("t", Value.vtorch [5])]

/-- Declared attributes of the main example object: one codec of every kind
plus a full-save-only numpy buffer. -/
def exSa0 : Value :=
  Value.vdict [("_save_attributes", Value.vstr "json"), ("w", Value.vstr "numpy"),
    ("cfg", Value.vstr "json"), ("buf", Value.vstr "numpy!"),
    ("child", Value.vstr "mushroom")]

/-- Fields of the main example object. -/
def exX0fields : List (String × Value) :=
  [("_save_attributes", exSa0), ("w", Value.vnumpy [1, 2]),
   ("cfg", Value.vdict [("lr", Value.vint 1)]), ("buf", Value.vnumpy [7]),
   ("child", exChild)]

/-- The main example object (all declared attributes present). -/
def exX0 : Value := Value.vobj "TestObj" exX0fields

/-- Declared attributes with a full-save-only nested-object codec. -/
def exSa5 : Value :=
  Value.vdict [("_save_attributes", Value.vstr "json"), ("child", Value.vstr "mushroom!")]

/-- Example object declaring its nested child as full-save-only. -/
def exX5 : Value := Value.vobj "T5" [("_save_attributes", exSa5), ("child", exChild)]

/-- Declared attributes with a plain nested-object codec. -/
def exSa2 : Value :=
  Value.vdict [("_save_attributes", Value.vstr "json"), ("child", Value.vstr "mushroom")]

/-- Example object whose declared nested attribute holds the absence marker. -/
def exX2 : Value := Value.vobj "T2" [("_save_attributes", exSa2), ("child", Value.vnone)]

/-- Example object that declares a nested attribute it does not possess. -/
def exX4 : Value := Value.vobj "T4" [("_save_attributes", exSa2)]

/-- Declared attributes including an unregistered codec name. -/
def exSa3 : Value :=
  Value.vdict [("_save_attributes", Value.vstr "json"), ("foo", Value.vstr "unknowncodec")]

/-- Example object declaring attribute `foo` with an unregistered codec and
not possessing `foo`. -/
def exX3 : Value := Value.vobj "T3" [("_save_attributes", exSa3)]

/-- Minimal declared-attributes dict. -/
def exSa1 : Value := Value.vdict [("_save_attributes", Value.vstr "json")]

/-- Minimal example object. -/
def exX1 : Value := Value.vobj "T1" [("_save_attributes", exSa1)]

/-- The archive produced by a full save of `exX2` (computed by the model). -/
def exAr2 : Archive :=
  [("config", EntryData.pk (Value.vdict
      [("type", Value.vtype "T2"), ("save_attributes", exSa2)])),
   ("_save_attributes.json", EntryData.js exSa2)]

/-- The archive produced by a full save of `exX3`. -/
def exAr3 : Archive :=
  [("config", EntryData.pk (Value.vdict
      [("type", Value.vtype "T3"), ("save_attributes", exSa3)])),
   ("_save_attributes.json", EntryData.js exSa3)]

/-- The archive produced by a full save of `exX1`. -/
def exAr1 : Archive :=
  [("config", EntryData.pk (Value.vdict
      [("type", Value.vtype "T1"), ("save_attributes", exSa1)])),
   ("_save_attributes.json", EntryData.js exSa1)]

/-- The declared-attributes list of `exX0` as read by the save/load loops. -/
def exAttrs0 : List (String × String) :=
  [("_save_attributes", "json"), ("w", "numpy"), ("cfg", "json"),
   ("buf", "numpy!"), ("child", "mushroom")]

/-- The archive produced by a full save of `exX0` (computed by the model). -/
def exAr0 : Archive :=
  [("config", EntryData.pk (Value.vdict
      [("type", Value.vtype "TestObj"), ("save_attributes", exSa0)])),
   ("_save_attributes.json", EntryData.js exSa0),
   ("w.numpy", EntryData.np [1, 2]),
   ("cfg.json", EntryData.js (Value.vdict [("lr", Value.vint 1)])),
   ("buf.numpy", EntryData.np [7]),
   ("child.mushroom/config", EntryData.pk (Value.vdict
      [("type", Value.vtype "Child"), ("save_attributes", exSaC)])),
   ("child.mushroom/_save_attributes.json", EntryData.js exSaC),
   ("child.mushroom/t.torch", EntryData.pt [5])]

/-- The archive produced by a NON-full save of `exX0`: the full-save-only
`buf` attribute is omitted. -/
def exAr0p : Archive :=
  [("config", EntryData.pk (Value.vdict
      [("type", Value.vtype "TestObj"), ("save_attributes", exSa0)])),
   ("_save_attributes.json", EntryData.js exSa0),
   ("w.numpy", EntryData.np [1, 2]),
   ("cfg.json", EntryData.js (Value.vdict [("lr", Value.vint 1)])),
   ("child.mushroom/config", EntryData.pk (Value.vdict
      [("type", Value.vtype "Child"), ("save_attributes", exSaC)])),
   ("child.mushroom/_save_attributes.json", EntryData.js exSaC),
   ("child.mushroom/t.torch", EntryData.pt [5])]

/-- The archive produced by a NON-full save of `exX5` (the full-save-only
nested child is omitted entirely). -/
def exAr5 : Archive :=
  [("config", EntryData.pk (Value.vdict
      [("type", Value.vtype "T5"), ("save_attributes", exSa5)])),
   ("_save_attributes.json", EntryData.js exSa5)]

/-- The archive produced by a full save of `exX4` (which does not possess its
declared nested attribute). -/
def exAr4 : Archive :=
  [("config", EntryData.pk (Value.vdict
      [("type", Value.vtype "T4"), ("save_attributes", exSa2)])),
   ("_save_attributes.json", EntryData.js exSa2)]

/-- Declared attributes with an optional (data-codec) attribute. -/
def exSa6 : Value :=
  Value.vdict [("_save_attributes", Value.vstr "json"), ("opt", Value.vstr "numpy")]

/-- Example object whose declared numpy attribute holds the absence marker. -/
def exX6 : Value :=
  Value.vobj "T6" [("_save_attributes", exSa6), ("opt", Value.vnone)]

/-- The archive produced by a full save of `exX6`: no entry for `opt`. -/
def exAr6 : Archive :=
  [("config", EntryData.pk (Value.vdict
      [("type", Value.vtype "T6"), ("save_attributes", exSa6)])),
   ("_save_attributes.json", EntryData.js exSa6)]

/-! Basic lemmas about the dictionary, path and archive primitives. -/

theorem dget_cons {α : Type} (a : String) (b : α) (rest : List (String × α))
    (k : String) : dget ((a, b) :: rest) k = if a = k then some b else dget rest k := by
  by_cases h : a = k
  · simp [dget, h]
  · simp [dget, List.find?_cons_of_neg, h]

theorem dset_cons {α : Type} (a : String) (b : α) (rest : List (String × α))
    (k : String) (v : α) :
    dset ((a, b) :: rest) k v = if a = k then (k, v) :: rest else (a, b) :: dset rest k v := by
  by_cases h : a = k <;> simp [dset, h]

theorem dget_dset_self {α : Type} (d : List (String × α)) (k : String) (v : α) :
    dget (dset d k v) k = some v := by
  induction d with
  | nil => simp [dget_cons, dset]
  | cons p rest ih =>
    obtain ⟨a, b⟩ := p
    rw [dset_cons]
    by_cases h : a = k
    · simp [h, dget_cons]
    · simp [h, dget_cons, ih]

theorem dget_dset_ne {α : Type} (d : List (String × α)) (k k' : String) (v : α)
    (h : k' ≠ k) : dget (dset d k v) k' = dget d k' := by
  induction d with
  | nil => simp [dget, dset, Ne.symm h]
  | cons p rest ih =>
    obtain ⟨a, b⟩ := p
    rw [dget_cons, dset_cons]
    by_cases h0 : a = k
    · subst h0
      rw [if_pos rfl, dget_cons, if_neg (fun hh => h hh.symm),
        if_neg (fun hh => h hh.symm)]
    · rw [if_neg h0, dget_cons]
      by_cases h1 : a = k'
      · rw [if_pos h1, if_pos h1]
      · rw [if_neg h1, if_neg h1, ih]

theorem strAppend_assoc (a b c : String) : a ++ b ++ c = a ++ (b ++ c) := by
  apply String.ext
  simp [String.data_append]

theorem strAppend_ne_empty_mid (a b : String) : a ++ "/" ++ b ≠ "" := by
  intro h
  have hd := congrArg String.data h
  simp [String.data_append] at hd

theorem appendFolder_inj (folder a b : String)
    (h : appendFolder folder a = appendFolder folder b) : a = b := by
  unfold appendFolder at h
  split at h
  · exact h
  · apply String.ext
    have hd := congrArg String.data h
    simp [String.data_append] at hd
    exact hd

theorem appendFolder_assoc (folder a b : String) (ha : a ≠ "") :
    appendFolder (appendFolder folder a) b = appendFolder folder (a ++ "/" ++ b) := by
  unfold appendFolder
  by_cases hf : folder = ""
  · simp [hf, ha]
  · simp only [if_neg hf, if_neg (strAppend_ne_empty_mid folder a)]
    apply String.ext
    simp [String.data_append]

theorem dotSplit : ∀ (l1 l2 r1 r2 : List Char), '.' ∉ l1 → '.' ∉ l2 →
    l1 ++ '.' :: r1 = l2 ++ '.' :: r2 → l1 = l2 ∧ r1 = r2 := by
  intro l1
  induction l1 with
  | nil =>
    intro l2 r1 r2 _ h2 h
    cases l2 with
    | nil => simpa using h
    | cons c l2' =>
      simp only [List.nil_append, List.cons_append, List.cons.injEq] at h
      exact absurd (h.1 ▸ List.mem_cons_self c l2') h2
  | cons c l1' ih =>
    intro l2 r1 r2 h1 h2 h
    cases l2 with
    | nil =>
      simp only [List.nil_append, List.cons_append, List.cons.injEq] at h
      exact absurd (h.1 ▸ List.mem_cons_self c l1') h1
    | cons c2 l2' =>
      simp only [List.cons_append, List.cons.injEq] at h
      have hrec := ih l2' r1 r2 (fun hm => h1 (List.mem_cons_of_mem c hm))
        (fun hm => h2 (List.mem_cons_of_mem c2 hm)) h.2
      exact ⟨by rw [h.1, hrec.1], hrec.2⟩

theorem validAttrName_no_dot (s : String) (h : validAttrName s = true) :
    '.' ∉ s.data := by
  intro hm
  have := List.all_eq_true.mp h '.' hm
  simp at this

theorem attrPathNe (att1 att2 r1 r2 : String)
    (h1 : validAttrName att1 = true) (h2 : validAttrName att2 = true)
    (hne : att1 ≠ att2) : att1 ++ "." ++ r1 ≠ att2 ++ "." ++ r2 := by
  intro h
  have hd := congrArg String.data h
  simp only [String.data_append, List.append_assoc, List.singleton_append] at hd
  exact hne (String.ext (dotSplit _ _ _ _ (validAttrName_no_dot _ h1)
    (validAttrName_no_dot _ h2) hd).1)

theorem ownedPathNe (folder att1 att2 r1 r2 : String)
    (h1 : validAttrName att1 = true) (h2 : validAttrName att2 = true)
    (hne : att1 ≠ att2) :
    appendFolder folder (att1 ++ "." ++ r1) ≠ appendFolder folder (att2 ++ "." ++ r2) :=
  fun h => attrPathNe att1 att2 r1 r2 h1 h2 hne (appendFolder_inj _ _ _ h)

theorem configPathNe (folder att r : String) :
    appendFolder folder "config" ≠ appendFolder folder (att ++ "." ++ r) := by
  intro h
  have hc := appendFolder_inj _ _ _ h
  have hd := congrArg String.data hc
  simp only [String.data_append, List.append_assoc, List.singleton_append] at hd
  have hm : ('.' : Char) ∈ att.data ++ '.' :: r.data := by simp
  rw [← hd] at hm
  exact absurd hm (by decide)

theorem zipLookup_nil (p : String) : zipLookup [] p = none := rfl

theorem zipLookup_cons_self (p : String) (d : EntryData) (rest : Archive) :
    zipLookup ((p, d) :: rest) p = some d := by
  simp [zipLookup, List.find?_cons_of_pos]

theorem zipLookup_cons_ne (q p : String) (d : EntryData) (rest : Archive)
    (h : q ≠ p) : zipLookup ((q, d) :: rest) p = zipLookup rest p := by
  simp [zipLookup, List.find?_cons_of_neg, h]

theorem zipLookup_append (a b : Archive) (p : String) :
    zipLookup (a ++ b) p = (zipLookup a p).or (zipLookup b p) := by
  unfold zipLookup
  rw [List.find?_append]
  cases h : a.find? (fun e => e.1 == p) <;> simp [Option.or]

theorem zipLookup_eq_none (a : Archive) (p : String) (h : ∀ e ∈ a, e.1 ≠ p) :
    zipLookup a p = none := by
  unfold zipLookup
  rw [List.find?_eq_none.mpr]
  · rfl
  · intro x hx
    simpa using h x hx

theorem zipHas_true_of_lookup (z : Archive) (p : String) (d : EntryData)
    (h : zipLookup z p = some d) : zipHas z p = true := by
  unfold zipLookup at h
  unfold zipHas
  cases hf : z.find? (fun e => e.1 == p) with
  | none => rw [hf] at h; simp at h
  | some e =>
    rw [List.any_eq_true]
    refine ⟨e, List.mem_of_find?_eq_some hf, ?_⟩
    have hp := List.find?_some hf
    simpa using hp

theorem zipHas_false_of_lookup_none (z : Archive) (p : String)
    (h : zipLookup z p = none) : zipHas z p = false := by
  unfold zipLookup at h
  unfold zipHas
  cases hf : z.find? (fun e => e.1 == p) with
  | none =>
    rw [List.any_eq_false]
    intro e he
    exact List.find?_eq_none.mp hf e he
  | some e => rw [hf] at h; simp at h

/-! Inversion lemmas for the save functions. -/

theorem strDot_ne_empty (a b : String) : a ++ "." ++ b ≠ "" := by
  intro h
  have hd := congrArg String.data h
  simp [String.data_append] at hd

theorem stripBang_eq (m : String) (c : Char) (h : strLast m = some c) :
    stripBang m = if c = '!' then dropLastStr m else m := by
  unfold stripBang
  by_cases hc : c = '!'
  · subst hc; rw [if_pos h, if_pos rfl]
  · rw [if_neg, if_neg hc]
    rw [h]
    simp [hc]

theorem saveMethods_cases (m' : String) (h : saveMethods.contains m' = true) :
    m' = "pickle" ∨ m' = "numpy" ∨ m' = "torch" ∨ m' = "json" ∨ m' = "mushroom" := by
  simp [saveMethods, List.contains] at h
  rcases h with h | h | h | h | h <;> simp [h]

theorem isNoneV_true_iff (v : Value) : isNoneV v = true ↔ v = Value.vnone := by
  cases v <;> simp [isNoneV]

theorem isNoneV_false_iff (v : Value) : isNoneV v = false ↔ v ≠ Value.vnone := by
  cases v <;> simp [isNoneV]

theorem saveOneAttrW_ok_inv (jf : Nat) (rs : SaveRec) (fields : List (String × Value))
    (full : Bool) (folder att m : String) (a : Archive)
    (h : saveOneAttrW jf rs fields full folder att m = Except.ok a) :
    ∃ c, strLast m = some c ∧
      (((¬(c ≠ '!' ∨ full = true) ∨ getattrD fields att = Value.vnone) ∧ a = []) ∨
       ((c ≠ '!' ∨ full = true) ∧ getattrD fields att ≠ Value.vnone ∧
         saveMethods.contains (stripBang m) = true ∧
         saveMethodW jf rs (stripBang m) (att ++ "." ++ stripBang m)
           (getattrD fields att) full folder = Except.ok a)) := by
  unfold saveOneAttrW at h
  cases hl : strLast m with
  | none => rw [hl] at h; exact absurd h (by simp)
  | some c =>
    rw [hl] at h
    dsimp only at h
    refine ⟨c, rfl, ?_⟩
    have hstrip : stripBang m = if c = '!' then dropLastStr m else m := stripBang_eq m c hl
    by_cases hp : c ≠ '!' ∨ full = true
    · rw [if_pos hp] at h
      by_cases hn : isNoneV (getattrD fields att) = true
      · rw [if_pos hn] at h
        simp only [Except.ok.injEq] at h
        exact Or.inl ⟨Or.inr ((isNoneV_true_iff _).mp hn), h.symm⟩
      · rw [if_neg hn] at h
        by_cases hc : saveMethods.contains (if c = '!' then dropLastStr m else m) = true
        · rw [if_pos hc] at h
          exact Or.inr ⟨hp, (isNoneV_false_iff _).mp (Bool.eq_false_iff.mpr hn),
            by rw [hstrip]; exact hc, by rw [hstrip]; exact h⟩
        · rw [if_neg hc] at h
          exact absurd h (by simp)
    · rw [if_neg hp] at h
      simp only [Except.ok.injEq] at h
      exact Or.inl ⟨Or.inl hp, h.symm⟩

theorem saveMethodW_pickle (jf : Nat) (rs : SaveRec) (name : String) (v : Value)
    (full : Bool) (folder : String) :
    saveMethodW jf rs "pickle" name v full folder =
      Except.ok [(appendFolder folder name, EntryData.pk v)] := rfl

theorem saveMethodW_numpy_inv (jf : Nat) (rs : SaveRec) (name : String) (v : Value)
    (full : Bool) (folder : String) (a : Archive)
    (h : saveMethodW jf rs "numpy" name v full folder = Except.ok a) :
    ∃ dt, v = Value.vnumpy dt ∧ a = [(appendFolder folder name, EntryData.np dt)] := by
  unfold saveMethodW at h
  cases v <;> simp_all

theorem saveMethodW_torch_inv (jf : Nat) (rs : SaveRec) (name : String) (v : Value)
    (full : Bool) (folder : String) (a : Archive)
    (h : saveMethodW jf rs "torch" name v full folder = Except.ok a) :
    ∃ dt, v = Value.vtorch dt ∧ a = [(appendFolder folder name, EntryData.pt dt)] := by
  unfold saveMethodW at h
  cases v <;> simp_all

theorem saveMethodW_json_inv (jf : Nat) (rs : SaveRec) (name : String) (v : Value)
    (full : Bool) (folder : String) (a : Archive)
    (h : saveMethodW jf rs "json" name v full folder = Except.ok a) :
    a = [(appendFolder folder name, EntryData.js v)] := by
  unfold saveMethodW at h
  by_cases hj : jsonableF jf v = true <;> simp_all

theorem saveMethodW_mushroom_inv (jf : Nat) (rs : SaveRec) (name : String) (v : Value)
    (full : Bool) (folder : String) (a : Archive)
    (h : saveMethodW jf rs "mushroom" name v full folder = Except.ok a) :
    ∃ t2 f2, v = Value.vobj t2 f2 ∧ rs t2 f2 full (appendFolder folder name) = Except.ok a := by
  unfold saveMethodW at h
  cases v <;> simp_all
  exact ⟨_, _, ⟨rfl, rfl⟩, h⟩

theorem saveZip_succ (n : Nat) (tid : String) (fields : List (String × Value))
    (full : Bool) (folder : String) :
    saveZip (n + 1) tid fields full folder = saveLevel n (saveZip n) tid fields full folder := rfl

theorem loadZip_succ (n : Nat) (z : Archive) (folder : String) :
    loadZip (n + 1) z folder = loadLevel (loadZip n) z folder := rfl

theorem saveLevel_ok_inv (jf : Nat) (rs : SaveRec) (tid : String)
    (fields : List (String × Value)) (full : Bool) (folder : String) (ar : Archive)
    (h : saveLevel jf rs tid fields full folder = Except.ok ar) :
    ∃ sa attrs arA,
      getattrOpt fields "_save_attributes" = some sa ∧
      asStrDict sa = some attrs ∧
      saveAttrsW jf rs fields full folder attrs = Except.ok arA ∧
      ar = (appendFolder folder "config",
        EntryData.pk (Value.vdict
          [("type", Value.vtype tid), ("save_attributes", sa)])) :: arA := by
  unfold saveLevel at h
  cases hsa : getattrOpt fields "_save_attributes" with
  | none => rw [hsa] at h; exact absurd h (by simp)
  | some sa =>
    rw [hsa] at h
    dsimp only at h
    cases hat : asStrDict sa with
    | none => rw [hat] at h; exact absurd h (by simp)
    | some attrs =>
      rw [hat] at h
      dsimp only at h
      cases hav : saveAttrsW jf rs fields full folder attrs with
      | error e => rw [hav] at h; exact absurd h (by simp)
      | ok arA =>
        rw [hav] at h
        simp only [Except.ok.injEq] at h
        exact ⟨sa, attrs, arA, rfl, hat, hav, h.symm⟩

theorem saveAttrsW_cons_inv (jf : Nat) (rs : SaveRec) (fields : List (String × Value))
    (full : Bool) (folder att m : String) (rest : List (String × String)) (a : Archive)
    (h : saveAttrsW jf rs fields full folder ((att, m) :: rest) = Except.ok a) :
    ∃ a1 a2, saveOneAttrW jf rs fields full folder att m = Except.ok a1 ∧
      saveAttrsW jf rs fields full folder rest = Except.ok a2 ∧ a = a1 ++ a2 := by
  rw [saveAttrsW] at h
  cases h1 : saveOneAttrW jf rs fields full folder att m with
  | error e => rw [h1] at h; exact absurd h (by simp)
  | ok a1 =>
    rw [h1] at h
    cases h2 : saveAttrsW jf rs fields full folder rest with
    | error e => rw [h2] at h; exact absurd h (by simp)
    | ok a2 =>
      rw [h2] at h
      simp at h
      exact ⟨a1, a2, rfl, rfl, h.symm⟩

/-! Every entry written by a save at `folder` has a name under `folder`, and
every entry written by the attribute loop is owned by one of the attributes
(its name is `folder`-relative `att ++ "." ++ r` for some suffix `r`). -/

theorem savePathsWeak : ∀ (n : Nat) (tid : String) (fields : List (String × Value))
    (full : Bool) (folder : String) (ar : Archive),
    saveZip n tid fields full folder = Except.ok ar →
    ∀ e ∈ ar, ∃ s : String, e.1 = appendFolder folder s := by
  intro n
  induction n with
  | zero =>
    intro tid fields full folder ar h
    exact absurd h (by simp [saveZip])
  | succ n ih =>
    have hOne : ∀ (fields : List (String × Value)) (full : Bool) (folder att m : String)
        (a : Archive), saveOneAttrW n (saveZip n) fields full folder att m = Except.ok a →
        ∀ e ∈ a, ∃ s : String, e.1 = appendFolder folder s := by
      intro fields full folder att m a h e he
      obtain ⟨c, _, hcase⟩ := saveOneAttrW_ok_inv n (saveZip n) fields full folder att m a h
      rcases hcase with ⟨_, ha⟩ | ⟨_, _, hmem, hsm⟩
      · subst ha; simp at he
      · rcases saveMethods_cases _ hmem with h5 | h5 | h5 | h5 | h5 <;> rw [h5] at hsm
        · rw [saveMethodW_pickle] at hsm
          simp at hsm
          subst hsm
          simp at he
          exact ⟨att ++ "." ++ stripBang m, by subst he; simp [h5]⟩
        · obtain ⟨dt, _, ha⟩ := saveMethodW_numpy_inv _ _ _ _ _ _ _ hsm
          subst ha
          simp at he
          exact ⟨att ++ "." ++ stripBang m, by subst he; simp [h5]⟩
        · obtain ⟨dt, _, ha⟩ := saveMethodW_torch_inv _ _ _ _ _ _ _ hsm
          subst ha
          simp at he
          exact ⟨att ++ "." ++ stripBang m, by subst he; simp [h5]⟩
        · have ha := saveMethodW_json_inv _ _ _ _ _ _ _ hsm
          subst ha
          simp at he
          exact ⟨att ++ "." ++ stripBang m, by subst he; simp [h5]⟩
        · obtain ⟨t2, f2, _, hrec⟩ := saveMethodW_mushroom_inv _ _ _ _ _ _ _ hsm
          obtain ⟨s2, hs2⟩ := ih t2 f2 full _ a hrec e he
          refine ⟨(att ++ "." ++ "mushroom") ++ "/" ++ s2, ?_⟩
          rw [hs2]
          exact appendFolder_assoc folder (att ++ "." ++ "mushroom") s2
            (strDot_ne_empty att "mushroom")
    have hAttrs : ∀ (attrs : List (String × String)) (fields : List (String × Value))
        (full : Bool) (folder : String) (a : Archive),
        saveAttrsW n (saveZip n) fields full folder attrs = Except.ok a →
        ∀ e ∈ a, ∃ s : String, e.1 = appendFolder folder s := by
      intro attrs
      induction attrs with
      | nil =>
        intro fields full folder a h e he
        simp [saveAttrsW] at h
        subst h
        simp at he
      | cons p rest ihr =>
        intro fields full folder a h e he
        obtain ⟨att, m⟩ := p
        obtain ⟨a1, a2, h1, h2, ha⟩ := saveAttrsW_cons_inv _ _ _ _ _ _ _ _ _ h
        subst ha
        rcases List.mem_append.mp he with he1 | he2
        · exact hOne fields full folder att m a1 h1 e he1
        · exact ihr fields full folder a2 h2 e he2
    intro tid fields full folder ar h e he
    rw [saveZip_succ] at h
    obtain ⟨sa, attrs, arA, hsa, hat, hav, har⟩ := saveLevel_ok_inv _ _ _ _ _ _ _ h
    subst har
    rcases List.mem_cons.mp he with he0 | heA
    · exact ⟨"config", by rw [he0]⟩
    · exact hAttrs attrs fields full folder arA hav e heA

theorem saveOneAttrW_owned (n : Nat) (fields : List (String × Value))
    (full : Bool) (folder att m : String) (a : Archive)
    (h : saveOneAttrW n (saveZip n) fields full folder att m = Except.ok a) :
    ∀ e ∈ a, ∃ r : String, e.1 = appendFolder folder (att ++ "." ++ r) := by
  intro e he
  obtain ⟨c, _, hcase⟩ := saveOneAttrW_ok_inv n (saveZip n) fields full folder att m a h
  rcases hcase with ⟨_, ha⟩ | ⟨_, _, hmem, hsm⟩
  · subst ha; simp at he
  · rcases saveMethods_cases _ hmem with h5 | h5 | h5 | h5 | h5 <;> rw [h5] at hsm
    · rw [saveMethodW_pickle] at hsm
      simp at hsm
      subst hsm
      simp at he
      exact ⟨stripBang m, by subst he; simp [h5]⟩
    · obtain ⟨dt, _, ha⟩ := saveMethodW_numpy_inv _ _ _ _ _ _ _ hsm
      subst ha
      simp at he
      exact ⟨stripBang m, by subst he; simp [h5]⟩
    · obtain ⟨dt, _, ha⟩ := saveMethodW_torch_inv _ _ _ _ _ _ _ hsm
      subst ha
      simp at he
      exact ⟨stripBang m, by subst he; simp [h5]⟩
    · have ha := saveMethodW_json_inv _ _ _ _ _ _ _ hsm
      subst ha
      simp at he
      exact ⟨stripBang m, by subst he; simp [h5]⟩
    · obtain ⟨t2, f2, _, hrec⟩ := saveMethodW_mushroom_inv _ _ _ _ _ _ _ hsm
      obtain ⟨s2, hs2⟩ := savePathsWeak n t2 f2 full _ a hrec e he
      refine ⟨stripBang m ++ "/" ++ s2, ?_⟩
      rw [hs2, h5]
      rw [appendFolder_assoc folder (att ++ "." ++ "mushroom") s2
        (strDot_ne_empty att "mushroom")]
      congr 1
      apply String.ext
      simp [String.data_append]

theorem saveAttrsW_owned (n : Nat) (attrs : List (String × String))
    (fields : List (String × Value)) (full : Bool) (folder : String) (a : Archive)
    (h : saveAttrsW n (saveZip n) fields full folder attrs = Except.ok a) :
    ∀ e ∈ a, ∃ p, p ∈ attrs ∧ ∃ r : String,
      e.1 = appendFolder folder (p.1 ++ "." ++ r) := by
  induction attrs generalizing a with
  | nil =>
    intro e he
    simp [saveAttrsW] at h
    subst h
    simp at he
  | cons p rest ihr =>
    intro e he
    obtain ⟨att, m⟩ := p
    obtain ⟨a1, a2, h1, h2, ha⟩ := saveAttrsW_cons_inv _ _ _ _ _ _ _ _ _ h
    subst ha
    rcases List.mem_append.mp he with he1 | he2
    · obtain ⟨r, hr⟩ := saveOneAttrW_owned n fields full folder att m a1 h1 e he1
      exact ⟨(att, m), List.mem_cons_self _ _, r, hr⟩
    · obtain ⟨q, hq, r, hr⟩ := ihr a2 h2 e he2
      exact ⟨q, List.mem_cons_of_mem _ hq, r, hr⟩

/-! Computation lemmas for the load functions. -/

theorem loadMethods_eq_saveMethods : loadMethods = saveMethods := rfl

theorem loadMethodW_pickle (rl : LoadRec) (z : Archive) (name : String) (v : Value)
    (h : zipLookup z name = some (EntryData.pk v)) :
    loadMethodW rl z name "pickle" = Except.ok v := by
  unfold loadMethodW
  rw [if_pos rfl, h]

theorem loadMethodW_mushroom (rl : LoadRec) (z : Archive) (name : String) :
    loadMethodW rl z name "mushroom" = rl z name := by
  unfold loadMethodW
  simp

theorem dataCodecRoundTrip (jf : Nat) (rs : SaveRec) (m' name : String) (v : Value)
    (full : Bool) (folder : String) (A1 : Archive)
    (hm : m' = "pickle" ∨ m' = "numpy" ∨ m' = "torch" ∨ m' = "json")
    (hsm : saveMethodW jf rs m' name v full folder = Except.ok A1) :
    ∃ d, A1 = [(appendFolder folder name, d)] ∧
      ∀ (rl : LoadRec) (z : Archive),
        zipLookup z (appendFolder folder name) = some d →
        loadMethodW rl z (appendFolder folder name) m' = Except.ok v := by
  rcases hm with rfl | rfl | rfl | rfl
  · rw [saveMethodW_pickle] at hsm
    simp only [Except.ok.injEq] at hsm
    refine ⟨EntryData.pk v, hsm.symm, ?_⟩
    intro rl z hz
    exact loadMethodW_pickle rl z _ v hz
  · obtain ⟨dt, hv, hA⟩ := saveMethodW_numpy_inv _ _ _ _ _ _ _ hsm
    refine ⟨EntryData.np dt, hA, ?_⟩
    intro rl z hz
    unfold loadMethodW
    rw [if_neg (by decide), if_pos rfl, hz, hv]
  · obtain ⟨dt, hv, hA⟩ := saveMethodW_torch_inv _ _ _ _ _ _ _ hsm
    refine ⟨EntryData.pt dt, hA, ?_⟩
    intro rl z hz
    unfold loadMethodW
    rw [if_neg (by decide), if_neg (by decide), if_pos rfl, hz, hv]
  · have hA := saveMethodW_json_inv _ _ _ _ _ _ _ hsm
    refine ⟨EntryData.js v, hA, ?_⟩
    intro rl z hz
    unfold loadMethodW
    rw [if_neg (by decide), if_neg (by decide), if_neg (by decide), if_pos rfl, hz]

theorem loadAttrsW_cons_found (rl : LoadRec) (z : Archive) (folder att m : String)
    (rest : List (String × String)) (acc : List (String × Value)) (c : Char) (v : Value)
    (hc : strLast m = some c)
    (hhas : zipHas z (appendFolder folder (att ++ "." ++ stripBang m)) = true ∨
      stripBang m = "mushroom")
    (hreg : loadMethods.contains (stripBang m) = true)
    (hlm : loadMethodW rl z (appendFolder folder (att ++ "." ++ stripBang m))
      (stripBang m) = Except.ok v) :
    loadAttrsW rl z folder ((att, m) :: rest) acc =
      loadAttrsW rl z folder rest (setattr acc att v) := by
  rw [loadAttrsW, hc]
  dsimp only
  rw [← stripBang_eq m c hc]
  rw [if_pos hhas, if_pos hreg, hlm]

theorem loadAttrsW_cons_missing (rl : LoadRec) (z : Archive) (folder att m : String)
    (rest : List (String × String)) (acc : List (String × Value)) (c : Char)
    (hc : strLast m = some c)
    (hhas : zipHas z (appendFolder folder (att ++ "." ++ stripBang m)) = false)
    (hnm : stripBang m ≠ "mushroom") :
    loadAttrsW rl z folder ((att, m) :: rest) acc =
      loadAttrsW rl z folder rest (setattr acc att Value.vnone) := by
  rw [loadAttrsW, hc]
  dsimp only
  rw [← stripBang_eq m c hc]
  rw [if_neg]
  intro hor
  rcases hor with hh | hh
  · rw [hhas] at hh; exact absurd hh (by simp)
  · exact hnm hh

theorem loadLevel_eq (rl : LoadRec) (Z : Archive) (folder tid : String) (sa : Value)
    (attrs : List (String × String)) (fieldsOut : List (String × Value))
    (hcfg : zipLookup Z (appendFolder folder "config") =
      some (EntryData.pk (Value.vdict
        [("type", Value.vtype tid), ("save_attributes", sa)])))
    (hat : asStrDict sa = some attrs)
    (hla : loadAttrsW rl Z folder attrs [] = Except.ok fieldsOut) :
    loadLevel rl Z folder = Except.ok (Value.vobj tid fieldsOut) := by
  unfold loadLevel loadConfigEntry
  rw [hcfg]
  dsimp only
  rw [hat]
  dsimp only
  rw [hla]

/-! The master round-trip theorem: a successful save of a well-formed object
can be reloaded from any archive that agrees with the saved entries under the
save folder, restoring every declared attribute per `AttrLoadConcl`. -/

theorem loadSaveMaster : ∀ (n : Nat) (tid : String) (fields : List (String × Value))
    (full : Bool) (folder : String) (ar Z : Archive) (sa : Value)
    (attrs : List (String × String)),
    saveZip n tid fields full folder = Except.ok ar →
    getattrOpt fields "_save_attributes" = some sa →
    asStrDict sa = some attrs →
    GoodObj full (Value.vobj tid fields) →
    (∀ s : String, zipLookup Z (appendFolder folder s) =
      zipLookup ar (appendFolder folder s)) →
    ∃ fields', loadZip n Z folder = Except.ok (Value.vobj tid fields') ∧
      ∀ p ∈ attrs, AttrLoadConcl full folder fields fields' ar p := by
  intro n
  induction n with
  | zero =>
    intro tid fields full folder ar Z sa attrs hsave
    exact absurd hsave (by simp [saveZip])
  | succ n ihn =>
    intro tid fields full folder ar Z sa attrs hsave hsa hat hgood hinv
    rw [saveZip_succ] at hsave
    obtain ⟨sa', attrs', arA, hsa', hat', havA, har⟩ :=
      saveLevel_ok_inv _ _ _ _ _ _ _ hsave
    rw [hsa] at hsa'
    injection hsa' with hsaEq
    subst hsaEq
    rw [hat] at hat'
    injection hat' with hatEq
    subst hatEq
    cases hgood with
    | mk _ _ sa2 attrs2 hsa2 hat2 hnodup hnames hmushP hmushG =>
      rw [hsa] at hsa2
      injection hsa2 with hsaEq2
      subst hsaEq2
      rw [hat] at hat2
      injection hat2 with hatEq2
      subst hatEq2
      -- config entry is readable through Z
      have hcfgZ : zipLookup Z (appendFolder folder "config") =
          some (EntryData.pk (Value.vdict
            [("type", Value.vtype tid), ("save_attributes", sa)])) := by
        rw [hinv "config", har]
        exact zipLookup_cons_self _ _ _
      -- the attribute loop
      have loop : ∀ (ats : List (String × String)),
          (∀ p ∈ ats, p ∈ attrs) →
          ∀ (arB : Archive) (acc : List (String × Value)),
          saveAttrsW n (saveZip n) fields full folder ats = Except.ok arB →
          (ats.map Prod.fst).Nodup →
          (∀ att r, att ∈ ats.map Prod.fst →
            zipLookup Z (appendFolder folder (att ++ "." ++ r)) =
            zipLookup arB (appendFolder folder (att ++ "." ++ r))) →
          ∃ res, loadAttrsW (loadZip n) Z folder ats acc = Except.ok res ∧
            (∀ p ∈ ats, AttrLoadConcl full folder fields res arB p) ∧
            (∀ k, k ∉ ats.map Prod.fst → dget res k = dget acc k) := by
        intro ats
        induction ats with
        | nil =>
          intro _ arB acc hsaveA _ _
          refine ⟨acc, rfl, ?_, ?_⟩
          · intro p hp; exact absurd hp (by simp)
          · intro k _; rfl
        | cons q rest ihr =>
          intro hsub arB acc hsaveA hnodupA hainv
          obtain ⟨att, m⟩ := q
          have hmemAttrs : (att, m) ∈ attrs := hsub (att, m) (List.mem_cons_self _ _)
          obtain ⟨A1, A2, h1, h2, haB⟩ := saveAttrsW_cons_inv _ _ _ _ _ _ _ _ _ hsaveA
          subst haB
          obtain ⟨c, hc, hcase⟩ := saveOneAttrW_ok_inv n (saveZip n) fields full folder att m A1 h1
          have hattValid : validAttrName att = true := hnames (att, m) hmemAttrs
          have hattNotRest : att ∉ rest.map Prod.fst := by
            have := List.nodup_cons.mp hnodupA
            simpa using this.1
          have hrestNodup : (rest.map Prod.fst).Nodup := (List.nodup_cons.mp hnodupA).2
          have hA2none : ∀ r, zipLookup A2 (appendFolder folder (att ++ "." ++ r)) = none := by
            intro r
            apply zipLookup_eq_none
            intro e he
            obtain ⟨q2, hq2, r2, hr2⟩ := saveAttrsW_owned n rest fields full folder A2 h2 e he
            rw [hr2]
            have hq2valid : validAttrName q2.1 = true :=
              hnames q2 (hsub q2 (List.mem_cons_of_mem _ hq2))
            have hq2ne : q2.1 ≠ att := by
              intro hh
              exact hattNotRest (hh ▸ List.mem_map_of_mem Prod.fst hq2)
            exact ownedPathNe folder q2.1 att r2 r hq2valid hattValid hq2ne
          have hA1noneAt : ∀ att' r, att' ∈ rest.map Prod.fst →
              zipLookup A1 (appendFolder folder (att' ++ "." ++ r)) = none := by
            intro att' r hmem'
            apply zipLookup_eq_none
            intro e he
            obtain ⟨r2, hr2⟩ := saveOneAttrW_owned n fields full folder att m A1 h1 e he
            rw [hr2]
            obtain ⟨q2, hq2, hq2eq⟩ := List.mem_map.mp hmem'
            have hvalid' : validAttrName att' = true := by
              rw [← hq2eq]
              exact hnames q2 (hsub q2 (List.mem_cons_of_mem _ hq2))
            have hne' : att ≠ att' := by
              intro hh
              exact hattNotRest (hh ▸ hmem')
            exact ownedPathNe folder att att' r2 r hattValid hvalid' hne'
          have hinvHead : ∀ r, zipLookup Z (appendFolder folder (att ++ "." ++ r)) =
              zipLookup A1 (appendFolder folder (att ++ "." ++ r)) := by
            intro r
            rw [hainv att r (by simp), zipLookup_append, hA2none r]
            cases zipLookup A1 (appendFolder folder (att ++ "." ++ r)) <;> simp [Option.or]
          have hinvRest : ∀ att' r, att' ∈ rest.map Prod.fst →
              zipLookup Z (appendFolder folder (att' ++ "." ++ r)) =
              zipLookup A2 (appendFolder folder (att' ++ "." ++ r)) := by
            intro att' r hmem'
            rw [hainv att' r (by simp [hmem']), zipLookup_append, hA1noneAt att' r hmem']
            simp [Option.or]
          rcases hcase with ⟨habs, hA1nil⟩ | ⟨hproc, hpres, hmem, hsm⟩
          · -- the attribute was skipped or absent: nothing was written
            subst hA1nil
            have hnm : stripBang m ≠ "mushroom" := by
              intro hmm
              have hprocM := hmushP (att, m) hmemAttrs hmm
              have hgoodv := hmushG (att, m) hmemAttrs hmm
              rcases habs with hnp | hvn
              · apply hnp
                rcases hprocM with hh | hh
                · left
                  intro hcq
                  exact hh (by rw [hcq] at hc; exact hc)
                · right; exact hh
              · rw [hvn] at hgoodv
                cases hgoodv
            have hlookZ : zipLookup Z (appendFolder folder (att ++ "." ++ stripBang m)) = none := by
              rw [hinvHead (stripBang m)]
              rfl
            have hhasZ := zipHas_false_of_lookup_none _ _ hlookZ
            rw [loadAttrsW_cons_missing (loadZip n) Z folder att m rest acc c hc hhasZ hnm]
            obtain ⟨res, hres, hconcl, hpre⟩ :=
              ihr (fun p hp => hsub p (List.mem_cons_of_mem _ hp)) A2
                (setattr acc att Value.vnone) h2 hrestNodup hinvRest
            refine ⟨res, hres, ?_, ?_⟩
            · intro p hp
              rcases List.mem_cons.mp hp with hphead | hp'
              · subst hphead
                intro c' hc'
                rw [hc] at hc'
                injection hc' with hcc
                subst hcc
                constructor
                · intro hcontra
                  rcases habs with hnp | hvn
                  · exact absurd hcontra.1 hnp
                  · exact absurd hvn hcontra.2
                · intro _
                  constructor
                  · show dget res att = some Value.vnone
                    rw [hpre att hattNotRest]
                    exact dget_dset_self acc att Value.vnone
                  · show zipLookup ([] ++ A2) _ = none
                    rw [List.nil_append]
                    exact hA2none _
              · intro c' hc'
                have hcp := hconcl p hp' c' hc'
                refine ⟨hcp.1, ?_⟩
                intro hx
                have h2x := hcp.2 hx
                refine ⟨h2x.1, ?_⟩
                show zipLookup ([] ++ A2) _ = none
                rw [List.nil_append]
                exact h2x.2
            · intro k hk
              have hkrest : k ∉ rest.map Prod.fst := by
                intro hh
                exact hk (by simp [hh])
              have hkatt : k ≠ att := by
                intro hh
                exact hk (by simp [hh])
              rw [hpre k hkrest]
              exact dget_dset_ne acc att k Value.vnone hkatt
          · -- the attribute was saved
            have hreg : loadMethods.contains (stripBang m) = true := by
              rw [loadMethods_eq_saveMethods]
              exact hmem
            by_cases hmush : stripBang m = "mushroom"
            · -- nested-object codec: recurse
              rw [hmush] at hsm
              obtain ⟨t2, f2, hv, hrec⟩ := saveMethodW_mushroom_inv _ _ _ _ _ _ _ hsm
              have hgoodv := hmushG (att, m) hmemAttrs hmush
              rw [hv] at hgoodv
              cases hgoodv with
              | mk _ _ sa3 attrs3 hsa3 hat3 hnodup3 hnames3 hmushP3 hmushG3 =>
                have hinv2 : ∀ s, zipLookup Z
                    (appendFolder (appendFolder folder (att ++ "." ++ "mushroom")) s) =
                    zipLookup A1
                    (appendFolder (appendFolder folder (att ++ "." ++ "mushroom")) s) := by
                  intro s
                  have heq : appendFolder (appendFolder folder (att ++ "." ++ "mushroom")) s =
                      appendFolder folder (att ++ "." ++ ("mushroom" ++ "/" ++ s)) := by
                    rw [appendFolder_assoc folder (att ++ "." ++ "mushroom") s
                      (strDot_ne_empty att "mushroom")]
                    congr 1
                    apply String.ext
                    simp [String.data_append]
                  rw [heq]
                  exact hinvHead ("mushroom" ++ "/" ++ s)
                obtain ⟨f2', hload2, hconcl2⟩ := ihn t2 f2 full
                  (appendFolder folder (att ++ "." ++ "mushroom")) A1 Z sa3 attrs3
                  hrec hsa3 hat3
                  (GoodObj.mk full t2 f2 sa3 attrs3 hsa3 hat3 hnodup3 hnames3 hmushP3 hmushG3)
                  hinv2
                have hobs : PObsEq full (Value.vobj t2 f2) (Value.vobj t2 f2') := by
                  apply PObsEq.obj full t2 f2 f2' sa3 attrs3 hsa3 hat3
                  · intro p2 hp2 c2 hc2 hx
                    have hcp2 := (hconcl2 p2 hp2 c2 hc2).1 hx
                    by_cases hm2 : stripBang p2.2 = "mushroom"
                    · obtain ⟨w2, hw2, hob2⟩ := hcp2.2 hm2
                      have : getattrD f2' p2.1 = w2 := by
                        unfold getattrD
                        rw [hw2]
                        rfl
                      rw [this]
                      exact hob2
                    · have heq2 := hcp2.1 hm2
                      have : getattrD f2' p2.1 = getattrD f2 p2.1 := by
                        unfold getattrD
                        rw [heq2]
                        rfl
                      rw [this]
                      exact PObsEq.refl full _
                  · intro p2 hp2 c2 hc2 hx
                    have hcp2 := (hconcl2 p2 hp2 c2 hc2).2 hx
                    unfold getattrD
                    rw [hcp2.1]
                    rfl
                have hlm : loadMethodW (loadZip n) Z
                    (appendFolder folder (att ++ "." ++ stripBang m)) (stripBang m) =
                    Except.ok (Value.vobj t2 f2') := by
                  rw [hmush, loadMethodW_mushroom]
                  exact hload2
                rw [loadAttrsW_cons_found (loadZip n) Z folder att m rest acc c
                  (Value.vobj t2 f2') hc (Or.inr hmush) hreg hlm]
                obtain ⟨res, hres, hconcl, hpre⟩ :=
                  ihr (fun p hp => hsub p (List.mem_cons_of_mem _ hp)) A2
                    (setattr acc att (Value.vobj t2 f2')) h2 hrestNodup hinvRest
                refine ⟨res, hres, ?_, ?_⟩
                · intro p hp
                  rcases List.mem_cons.mp hp with hphead | hp'
                  · subst hphead
                    intro c' hc'
                    rw [hc] at hc'
                    injection hc' with hcc
                    subst hcc
                    constructor
                    · intro _
                      constructor
                      · intro hnm2
                        exact absurd hmush hnm2
                      · intro _
                        refine ⟨Value.vobj t2 f2', ?_, ?_⟩
                        · show dget res att = some (Value.vobj t2 f2')
                          rw [hpre att hattNotRest]
                          exact dget_dset_self acc att _
                        · rw [hv]
                          exact hobs
                    · intro hcontra
                      exact absurd ⟨hproc, hpres⟩ hcontra
                  · intro c' hc'
                    have hcp := hconcl p hp' c' hc'
                    refine ⟨hcp.1, ?_⟩
                    intro hx
                    have h2x := hcp.2 hx
                    refine ⟨h2x.1, ?_⟩
                    rw [zipLookup_append, h2x.2]
                    have hp1mem : p.1 ∈ rest.map Prod.fst := List.mem_map_of_mem Prod.fst hp'
                    rw [hA1noneAt p.1 (stripBang p.2) hp1mem]
                    rfl
                · intro k hk
                  have hkrest : k ∉ rest.map Prod.fst := by
                    intro hh
                    exact hk (by simp [hh])
                  have hkatt : k ≠ att := by
                    intro hh
                    exact hk (by simp [hh])
                  rw [hpre k hkrest]
                  exact dget_dset_ne acc att k _ hkatt
            · -- one of the four data codecs
              have hm4 : stripBang m = "pickle" ∨ stripBang m = "numpy" ∨
                  stripBang m = "torch" ∨ stripBang m = "json" := by
                rcases saveMethods_cases _ hmem with h5 | h5 | h5 | h5 | h5
                · exact Or.inl h5
                · exact Or.inr (Or.inl h5)
                · exact Or.inr (Or.inr (Or.inl h5))
                · exact Or.inr (Or.inr (Or.inr h5))
                · exact absurd h5 hmush
              obtain ⟨d, hA1eq, hdec⟩ := dataCodecRoundTrip n (saveZip n) (stripBang m)
                (att ++ "." ++ stripBang m) (getattrD fields att) full folder A1 hm4 hsm
              have hlookZ : zipLookup Z (appendFolder folder (att ++ "." ++ stripBang m)) =
                  some d := by
                rw [hinvHead (stripBang m), hA1eq]
                exact zipLookup_cons_self _ _ _
              have hhasZ := zipHas_true_of_lookup _ _ _ hlookZ
              have hlm := hdec (loadZip n) Z hlookZ
              rw [loadAttrsW_cons_found (loadZip n) Z folder att m rest acc c
                (getattrD fields att) hc (Or.inl hhasZ) hreg hlm]
              obtain ⟨res, hres, hconcl, hpre⟩ :=
                ihr (fun p hp => hsub p (List.mem_cons_of_mem _ hp)) A2
                  (setattr acc att (getattrD fields att)) h2 hrestNodup hinvRest
              refine ⟨res, hres, ?_, ?_⟩
              · intro p hp
                rcases List.mem_cons.mp hp with hphead | hp'
                · subst hphead
                  intro c' hc'
                  rw [hc] at hc'
                  injection hc' with hcc
                  subst hcc
                  constructor
                  · intro _
                    constructor
                    · intro _
                      show dget res att = some (getattrD fields att)
                      rw [hpre att hattNotRest]
                      exact dget_dset_self acc att _
                    · intro hmm
                      exact absurd hmm hmush
                  · intro hcontra
                    exact absurd ⟨hproc, hpres⟩ hcontra
                · intro c' hc'
                  have hcp := hconcl p hp' c' hc'
                  refine ⟨hcp.1, ?_⟩
                  intro hx
                  have h2x := hcp.2 hx
                  refine ⟨h2x.1, ?_⟩
                  rw [zipLookup_append, h2x.2]
                  have hp1mem : p.1 ∈ rest.map Prod.fst := List.mem_map_of_mem Prod.fst hp'
                  rw [hA1noneAt p.1 (stripBang p.2) hp1mem]
                  rfl
              · intro k hk
                have hkrest : k ∉ rest.map Prod.fst := by
                  intro hh
                  exact hk (by simp [hh])
                have hkatt : k ≠ att := by
                  intro hh
                  exact hk (by simp [hh])
                rw [hpre k hkrest]
                exact dget_dset_ne acc att k _ hkatt
      -- invariant instance for the whole attribute list
      have hainvTop : ∀ att r, att ∈ attrs.map Prod.fst →
          zipLookup Z (appendFolder folder (att ++ "." ++ r)) =
          zipLookup arA (appendFolder folder (att ++ "." ++ r)) := by
        intro att r _
        rw [hinv (att ++ "." ++ r), har]
        exact zipLookup_cons_ne _ _ _ _ (configPathNe folder att r)
      obtain ⟨res, hres, hconcl, _⟩ :=
        loop attrs (fun p hp => hp) arA [] havA hnodup hainvTop
      refine ⟨res, ?_, ?_⟩
      · rw [loadZip_succ]
        exact loadLevel_eq (loadZip n) Z folder tid sa attrs res hcfgZ hat hres
      · intro p hp
        intro c' hc'
        have hcp := hconcl p hp c' hc'
        refine ⟨hcp.1, ?_⟩
        intro hx
        have h2x := hcp.2 hx
        refine ⟨h2x.1, ?_⟩
        rw [har, zipLookup_cons_ne _ _ _ _ (configPathNe folder p.1 (stripBang p.2))]
        exact h2x.2

theorem loadAttrsW_cons_err (rl : LoadRec) (z : Archive) (folder att m : String)
    (rest : List (String × String)) (acc : List (String × Value)) (c : Char) (e : PErr)
    (hc : strLast m = some c)
    (hhas : zipHas z (appendFolder folder (att ++ "." ++ stripBang m)) = true ∨
      stripBang m = "mushroom")
    (hreg : loadMethods.contains (stripBang m) = true)
    (hlm : loadMethodW rl z (appendFolder folder (att ++ "." ++ stripBang m))
      (stripBang m) = Except.error e) :
    loadAttrsW rl z folder ((att, m) :: rest) acc = Except.error e := by
  rw [loadAttrsW, hc]
  dsimp only
  rw [← stripBang_eq m c hc]
  rw [if_pos hhas, if_pos hreg, hlm]

/-! The claims. -/

/-- C1: for every SerializableObject whose declared attributes all have
registered codecs and present values (`GoodObj` plus presence), loading the
archive written by `save(x, full_save=True)` succeeds and returns an object
observationally equal to `x`: every declared attribute restored by a data
codec is literally equal, and nested-object attributes are recursively
observationally equal (`PObsEq true`). -/
theorem claim_C1_full_roundtrip (n : Nat) (tid : String)
    (fields : List (String × Value)) (ar : Archive) (sa : Value)
    (attrs : List (String × String))
    (hsa : getattrOpt fields "_save_attributes" = some sa)
    (hat : asStrDict sa = some attrs)
    (hgood : GoodObj true (Value.vobj tid fields))
    (hpres : ∀ p ∈ attrs, getattrD fields p.1 ≠ Value.vnone)
    (hsave : saveZip n tid fields true "" = Except.ok ar) :
    ∃ x', loadZip n ar "" = Except.ok x' ∧
      PObsEq true (Value.vobj tid fields) x' := by
  obtain ⟨fields', hload, hconcl⟩ := loadSaveMaster n tid fields true "" ar ar sa attrs
    hsave hsa hat hgood (fun s => rfl)
  refine ⟨Value.vobj tid fields', hload, ?_⟩
  apply PObsEq.obj true tid fields fields' sa attrs hsa hat
  · intro p hp c hc hx
    have hcp := (hconcl p hp c hc).1 hx
    by_cases hm : stripBang p.2 = "mushroom"
    · obtain ⟨w, hw, hob⟩ := hcp.2 hm
      have hww : getattrD fields' p.1 = w := by
        unfold getattrD
        rw [hw]
        rfl
      rw [hww]
      exact hob
    · have heq := hcp.1 hm
      have hww : getattrD fields' p.1 = getattrD fields p.1 := by
        unfold getattrD
        rw [heq]
        rfl
      rw [hww]
      exact PObsEq.refl true _
  · intro p hp c hc hx
    exact absurd ⟨Or.inr rfl, hpres p hp⟩ hx

/-- Witness for C1 at the concrete object `exX0`, which declares one
attribute of every codec kind (json, numpy, numpy full-save-only, nested
object with a torch attribute), all present. -/
theorem claim_C1_witness :
    ∃ x', loadZip 6 exAr0 "" = Except.ok x' ∧ PObsEq true exX0 x' := by
  have hgoodChild : GoodObj true exChild := by
    apply GoodObj.mk true "Child"
      [("_save_attributes", exSaC), ("t", Value.vtorch [5])] exSaC
      [("_save_attributes", "json"), ("t", "torch")] rfl rfl
      (by decide) (by decide) (by decide)
    intro p hp hm
    fin_cases hp <;> exact absurd hm (by decide)
  have hgood : GoodObj true exX0 := by
    apply GoodObj.mk true "TestObj" exX0fields exSa0 exAttrs0 rfl rfl
      (by decide) (by decide) (by decide)
    intro p hp hm
    fin_cases hp <;> first
      | exact absurd hm (by decide)
      | exact hgoodChild
  exact claim_C1_full_roundtrip 6 "TestObj" exX0fields exAr0 exSa0 exAttrs0
    rfl rfl hgood
    (by intro p hp; fin_cases hp <;> exact fun h => Value.noConfusion h)
    rfl

/-- Counterexample to C2: the config entry of a save is a pickle payload,
not structured-config UTF-8 JSON text as the claim states. -/
theorem claim_C2_counterexample :
    saveZip 6 "T1" [("_save_attributes", exSa1)] true "" = Except.ok exAr1 ∧
    zipLookup exAr1 "config" = some (EntryData.pk (Value.vdict
      [("type", Value.vtype "T1"), ("save_attributes", exSa1)])) ∧
    isJsEntry (zipLookup exAr1 "config") = false :=
  ⟨rfl, rfl, rfl⟩

/-- C2 as amended: every save writes the config entry (concrete type plus
declared-attributes mapping) as the FIRST archive entry using the pickle
codec, and every load reads that entry back via pickle before any attribute
is restored — in particular a config entry holding structured-config JSON
text makes load fail immediately. -/
theorem claim_C2_amended :
    (∀ (n : Nat) (tid : String) (fields : List (String × Value)) (full : Bool)
      (folder : String) (sa : Value) (ar : Archive),
      getattrOpt fields "_save_attributes" = some sa →
      saveZip (n + 1) tid fields full folder = Except.ok ar →
      ∃ rest, ar = (appendFolder folder "config",
        EntryData.pk (Value.vdict
          [("type", Value.vtype tid), ("save_attributes", sa)])) :: rest) ∧
    (∀ (n : Nat) (Z : Archive) (folder : String) (j : Value),
      zipLookup Z (appendFolder folder "config") = some (EntryData.js j) →
      loadZip (n + 1) Z folder = Except.error PErr.badEntryData) := by
  constructor
  · intro n tid fields full folder sa ar hsa hsave
    rw [saveZip_succ] at hsave
    obtain ⟨sa', attrs', arA, hsa', hat', havA, har⟩ := saveLevel_ok_inv _ _ _ _ _ _ _ hsave
    rw [hsa] at hsa'
    injection hsa' with hsaEq
    subst hsaEq
    exact ⟨arA, har⟩
  · intro n Z folder j hcfg
    rw [loadZip_succ]
    unfold loadLevel loadConfigEntry
    rw [hcfg]

/-- Witness for the amended C2: the concrete archive of `exX1` starts with a
pickled config entry, and a crafted archive whose config entry is JSON text
fails to load. -/
theorem claim_C2_witness :
    (∃ rest, exAr1 = ("config", EntryData.pk (Value.vdict
      [("type", Value.vtype "T1"), ("save_attributes", exSa1)])) :: rest) ∧
    loadZip 2 [("config", EntryData.js exSa1)] "" = Except.error PErr.badEntryData := by
  constructor
  · exact claim_C2_amended.1 5 "T1" [("_save_attributes", exSa1)] true "" exSa1 exAr1 rfl rfl
  · exact claim_C2_amended.2 1 [("config", EntryData.js exSa1)] "" exSa1 rfl

/-- Counterexample to C3: for an attribute declared with the full-save-only
flag AND the nested-object codec (`mushroom!`), `load(save(x, full_save=False))`
does not yield the absence marker — the load fails with a missing-entry
error, because load always recurses into declared nested objects. -/
theorem claim_C3_counterexample :
    save 6 exX5 false = Except.ok exAr5 ∧
    load 6 exAr5 = Except.error (PErr.keyError "child.mushroom/config") :=
  ⟨rfl, rfl⟩

/-- C3 as amended: for a full-save-only attribute whose codec is NOT the
nested-object codec, `load(save(x, full_save=False))` yields the absence
marker; and for every full-save-only attribute with a present value,
`load(save(x, full_save=True))` yields its original value (observational
equality for nested objects).  The nested-object full-save-only combination
under a partial save instead makes the subsequent load fail (see the
counterexample). -/
theorem claim_C3_amended :
    (∀ (n : Nat) (tid : String) (fields : List (String × Value)) (ar : Archive)
      (sa : Value) (attrs : List (String × String)) (att m : String),
      getattrOpt fields "_save_attributes" = some sa →
      asStrDict sa = some attrs →
      GoodObj false (Value.vobj tid fields) →
      (att, m) ∈ attrs →
      strLast m = some '!' →
      stripBang m ≠ "mushroom" →
      saveZip n tid fields false "" = Except.ok ar →
      ∃ fields', loadZip n ar "" = Except.ok (Value.vobj tid fields') ∧
        getattrOpt fields' att = some Value.vnone) ∧
    (∀ (n : Nat) (tid : String) (fields : List (String × Value)) (ar : Archive)
      (sa : Value) (attrs : List (String × String)) (att m : String),
      getattrOpt fields "_save_attributes" = some sa →
      asStrDict sa = some attrs →
      GoodObj true (Value.vobj tid fields) →
      (att, m) ∈ attrs →
      strLast m = some '!' →
      getattrD fields att ≠ Value.vnone →
      saveZip n tid fields true "" = Except.ok ar →
      ∃ fields', loadZip n ar "" = Except.ok (Value.vobj tid fields') ∧
        (stripBang m ≠ "mushroom" →
          getattrOpt fields' att = some (getattrD fields att)) ∧
        (stripBang m = "mushroom" → ∃ w, getattrOpt fields' att = some w ∧
          PObsEq true (getattrD fields att) w)) := by
  constructor
  · intro n tid fields ar sa attrs att m hsa hat hgood hmem hbang hnm hsave
    obtain ⟨fields', hload, hconcl⟩ := loadSaveMaster n tid fields false "" ar ar sa attrs
      hsave hsa hat hgood (fun s => rfl)
    refine ⟨fields', hload, ?_⟩
    have hcp := (hconcl (att, m) hmem '!' hbang).2
    have hx : ¬(('!' ≠ '!' ∨ false = true) ∧ getattrD fields att ≠ Value.vnone) := by
      intro hcontra
      rcases hcontra.1 with hh | hh
      · exact hh rfl
      · exact absurd hh (by simp)
    exact (hcp hx).1
  · intro n tid fields ar sa attrs att m hsa hat hgood hmem hbang hpres hsave
    obtain ⟨fields', hload, hconcl⟩ := loadSaveMaster n tid fields true "" ar ar sa attrs
      hsave hsa hat hgood (fun s => rfl)
    refine ⟨fields', hload, ?_⟩
    have hcp := (hconcl (att, m) hmem '!' hbang).1 ⟨Or.inr rfl, hpres⟩
    exact hcp

/-- Witness for the amended C3 at `exX0` (attribute `buf` is declared
`numpy!`): a partial save reloads `buf` as the absence marker, a full save
reloads it as its original value. -/
theorem claim_C3_witness :
    (∃ fields', loadZip 6 exAr0p "" = Except.ok (Value.vobj "TestObj" fields') ∧
      getattrOpt fields' "buf" = some Value.vnone) ∧
    (∃ fields', loadZip 6 exAr0 "" = Except.ok (Value.vobj "TestObj" fields') ∧
      (stripBang "numpy!" ≠ "mushroom" →
        getattrOpt fields' "buf" = some (getattrD exX0fields "buf")) ∧
      (stripBang "numpy!" = "mushroom" → ∃ w, getattrOpt fields' "buf" = some w ∧
        PObsEq true (getattrD exX0fields "buf") w)) := by
  have hgoodChild : ∀ b : Bool, GoodObj b exChild := by
    intro b
    apply GoodObj.mk b "Child"
      [("_save_attributes", exSaC), ("t", Value.vtorch [5])] exSaC
      [("_save_attributes", "json"), ("t", "torch")] rfl rfl
      (by decide) (by decide)
      (by intro p hp hm; fin_cases hp <;> exact absurd hm (by decide))
    intro p hp hm
    fin_cases hp <;> exact absurd hm (by decide)
  have hgood : ∀ b : Bool, GoodObj b exX0 := by
    intro b
    apply GoodObj.mk b "TestObj" exX0fields exSa0 exAttrs0 rfl rfl
      (by decide) (by decide)
      (by intro p hp hm; fin_cases hp <;> first
        | exact absurd hm (by decide)
        | exact Or.inl (by decide))
    intro p hp hm
    fin_cases hp <;> first
      | exact absurd hm (by decide)
      | exact hgoodChild b
  constructor
  · exact claim_C3_amended.1 6 "TestObj" exX0fields exAr0p exSa0 exAttrs0 "buf" "numpy!"
      rfl rfl (hgood false) (by decide) rfl (by decide) rfl
  · exact claim_C3_amended.2 6 "TestObj" exX0fields exAr0 exSa0 exAttrs0 "buf" "numpy!"
      rfl rfl (hgood true) (by decide) rfl (fun h => Value.noConfusion h) rfl

/-- Counterexample to C4: save does NOT always write the sub-archive of a
declared nested-object attribute — when its value is the absence marker,
nothing is written under its sub-path, and the subsequent load fails. -/
theorem claim_C4_counterexample :
    save 6 exX2 true = Except.ok exAr2 ∧
    zipLookup exAr2 "child.mushroom/config" = none ∧
    load 6 exAr2 = Except.error (PErr.keyError "child.mushroom/config") :=
  ⟨rfl, rfl, rfl⟩

/-- C4 as amended: save writes the sub-archive of a declared nested-object
attribute exactly when its value is present (a present nested object is
saved by recursing at the sub-path; an absent one produces no entries at
all), while load ALWAYS recurses at the sub-path and raises a missing-entry
error when the sub-archive's config is absent, never silently assigning the
absence marker. -/
theorem claim_C4_amended :
    (∀ (jf : Nat) (rs : SaveRec) (fields : List (String × Value)) (full : Bool)
      (folder att m : String) (c : Char) (t2 : String) (f2 : List (String × Value)),
      strLast m = some c → stripBang m = "mushroom" → (c ≠ '!' ∨ full = true) →
      getattrD fields att = Value.vobj t2 f2 →
      saveOneAttrW jf rs fields full folder att m =
        rs t2 f2 full (appendFolder folder (att ++ "." ++ "mushroom"))) ∧
    (∀ (jf : Nat) (rs : SaveRec) (fields : List (String × Value)) (full : Bool)
      (folder att m : String) (c : Char),
      strLast m = some c →
      getattrD fields att = Value.vnone →
      saveOneAttrW jf rs fields full folder att m = Except.ok []) ∧
    (∀ (k : Nat) (Z : Archive) (folder att m : String) (c : Char)
      (rest : List (String × String)) (acc : List (String × Value)),
      strLast m = some c → stripBang m = "mushroom" →
      zipLookup Z (appendFolder (appendFolder folder (att ++ "." ++ "mushroom"))
        "config") = none →
      loadAttrsW (loadZip (k + 1)) Z folder ((att, m) :: rest) acc =
        Except.error (PErr.keyError
          (appendFolder (appendFolder folder (att ++ "." ++ "mushroom")) "config"))) := by
  refine ⟨?_, ?_, ?_⟩
  · intro jf rs fields full folder att m c t2 f2 hc hmush hproc hv
    unfold saveOneAttrW
    rw [hc]
    dsimp only
    rw [← stripBang_eq m c hc]
    rw [if_pos hproc, hv]
    rw [if_neg (by simp [isNoneV])]
    rw [if_pos (by rw [hmush]; decide), hmush]
    unfold saveMethodW
    rw [if_neg (by decide), if_neg (by decide), if_neg (by decide),
      if_neg (by decide), if_pos rfl]
  · intro jf rs fields full folder att m c hc hv
    unfold saveOneAttrW
    rw [hc]
    dsimp only
    by_cases hproc : c ≠ '!' ∨ full = true
    · rw [if_pos hproc, hv]
      rw [if_pos (by simp [isNoneV])]
    · rw [if_neg hproc]
  · intro k Z folder att m c rest acc hc hmush hmiss
    have hlm : loadMethodW (loadZip (k + 1)) Z
        (appendFolder folder (att ++ "." ++ stripBang m)) (stripBang m) =
        Except.error (PErr.keyError
          (appendFolder (appendFolder folder (att ++ "." ++ "mushroom")) "config")) := by
      rw [hmush, loadMethodW_mushroom, loadZip_succ]
      unfold loadLevel loadConfigEntry
      rw [hmiss]
    exact loadAttrsW_cons_err (loadZip (k + 1)) Z folder att m rest acc c _ hc
      (Or.inr hmush) (by rw [hmush]; decide) hlm

/-- Witness for the amended C4: a present nested child is saved by recursion
(concretely producing its sub-archive), an absent one writes nothing, and
load on an archive missing the sub-config fails with that key. -/
theorem claim_C4_witness :
    saveOneAttrW 5 (saveZip 5) [("_save_attributes", exSa2), ("child", exChild)]
      true "" "child" "mushroom" =
      saveZip 5 "Child" [("_save_attributes", exSaC), ("t", Value.vtorch [5])]
        true "child.mushroom" ∧
    saveOneAttrW 5 (saveZip 5) [("_save_attributes", exSa2), ("child", Value.vnone)]
      true "" "child" "mushroom" = Except.ok [] ∧
    loadAttrsW (loadZip 3) exAr4 "" [("child", "mushroom")] [] =
      Except.error (PErr.keyError "child.mushroom/config") := by
  refine ⟨?_, ?_, ?_⟩
  · exact claim_C4_amended.1 5 (saveZip 5)
      [("_save_attributes", exSa2), ("child", exChild)] true "" "child" "mushroom"
      'm' "Child" [("_save_attributes", exSaC), ("t", Value.vtorch [5])]
      rfl (by decide) (by decide) rfl
  · exact claim_C4_amended.2.1 5 (saveZip 5)
      [("_save_attributes", exSa2), ("child", Value.vnone)] true "" "child" "mushroom"
      'm' rfl rfl
  · exact claim_C4_amended.2.2 2 exAr4 "" "child" "mushroom" 'm' [] [] rfl
      (by decide) rfl

/-- Counterexample to C5: an attribute declared with an unregistered codec
name whose value is absent is SILENTLY SKIPPED — save succeeds without any
error and the round trip assigns the absence marker, contradicting the claim
that an unregistered codec name always raises and is never silently
skipped. -/
theorem claim_C5_counterexample :
    save 6 exX3 true = Except.ok exAr3 ∧
    roundTrip 6 exX3 true = Except.ok (Value.vobj "T3"
      [("_save_attributes", exSa3), ("foo", Value.vnone)]) :=
  ⟨rfl, rfl⟩

/-- C5 as amended: an unregistered codec name raises only when it is actually
dispatched — at save time when the attribute is selected by the save mode and
its value is present (raising `NotImplementedError`), and at load time when
the corresponding entry exists in the archive (raising `AttributeError` from
the `getattr(cls, '_load_...')` lookup).  An attribute with an absent value
is skipped by save and set to the absence marker by load without any codec
check.  (The save-side hypothesis excludes the name `attributes`, for which
the source's `hasattr(self, '_save_attributes')` probe accidentally finds the
declaration dict itself and fails differently.) -/
theorem claim_C5_amended :
    (∀ (jf : Nat) (rs : SaveRec) (fields : List (String × Value)) (full : Bool)
      (folder att m : String) (c : Char),
      strLast m = some c → (c ≠ '!' ∨ full = true) →
      getattrD fields att ≠ Value.vnone →
      saveMethods.contains (stripBang m) = false →
      stripBang m ≠ "attributes" →
      saveOneAttrW jf rs fields full folder att m =
        Except.error (PErr.notImplemented (stripBang m))) ∧
    (∀ (k : Nat) (Z : Archive) (folder att m : String) (c : Char)
      (rest : List (String × String)) (acc : List (String × Value)),
      strLast m = some c →
      zipHas Z (appendFolder folder (att ++ "." ++ stripBang m)) = true →
      loadMethods.contains (stripBang m) = false →
      loadAttrsW (loadZip k) Z folder ((att, m) :: rest) acc =
        Except.error (PErr.attributeError ("_load_" ++ stripBang m))) := by
  constructor
  · intro jf rs fields full folder att m c hc hproc hpres hreg _
    unfold saveOneAttrW
    rw [hc]
    dsimp only
    rw [← stripBang_eq m c hc]
    rw [if_pos hproc]
    rw [if_neg (by rw [Bool.not_eq_true, isNoneV_false_iff]; exact hpres)]
    rw [if_neg (by rw [hreg]; simp)]
  · intro k Z folder att m c rest acc hc hhas hreg
    rw [loadAttrsW, hc]
    dsimp only
    rw [← stripBang_eq m c hc]
    rw [if_pos (Or.inl hhas)]
    rw [if_neg (by rw [hreg]; simp)]

/-- Witness for the amended C5: declaring `foo` with codec `unknowncodec` and
a present value makes save raise `NotImplementedError`, and an archive entry
named for an unregistered codec makes load raise `AttributeError`. -/
theorem claim_C5_witness :
    saveOneAttrW 3 (saveZip 3) [("_save_attributes", exSa3), ("foo", Value.vstr "x")]
      true "" "foo" "unknowncodec" =
      Except.error (PErr.notImplemented "unknowncodec") ∧
    loadAttrsW (loadZip 3) [("foo.unknowncodec", EntryData.np [1])] ""
      [("foo", "unknowncodec")] [] =
      Except.error (PErr.attributeError "_load_unknowncodec") := by
  constructor
  · exact claim_C5_amended.1 3 (saveZip 3)
      [("_save_attributes", exSa3), ("foo", Value.vstr "x")] true "" "foo"
      "unknowncodec" 'c' rfl (by decide) (fun h => Value.noConfusion h)
      (by decide) (by decide)
  · exact claim_C5_amended.2 3 [("foo.unknowncodec", EntryData.np [1])] ""
      "foo" "unknowncodec" 'c' [] [] rfl rfl (by decide)

/-- C6: for a non-nested declared attribute whose value is the absence marker
at save time, the archive contains no entry named for that attribute, and a
subsequent load succeeds and assigns it the absence marker again. -/
theorem claim_C6_optional_omission (n : Nat) (tid : String)
    (fields : List (String × Value)) (full : Bool) (ar : Archive) (sa : Value)
    (attrs : List (String × String)) (att m : String) (c : Char)
    (hsa : getattrOpt fields "_save_attributes" = some sa)
    (hat : asStrDict sa = some attrs)
    (hgood : GoodObj full (Value.vobj tid fields))
    (hmem : (att, m) ∈ attrs)
    (hc : strLast m = some c)
    (hnm : stripBang m ≠ "mushroom")
    (habs : getattrD fields att = Value.vnone)
    (hsave : saveZip n tid fields full "" = Except.ok ar) :
    zipLookup ar (att ++ "." ++ stripBang m) = none ∧
    ∃ fields', loadZip n ar "" = Except.ok (Value.vobj tid fields') ∧
      getattrOpt fields' att = some Value.vnone := by
  obtain ⟨fields', hload, hconcl⟩ := loadSaveMaster n tid fields full "" ar ar sa attrs
    hsave hsa hat hgood (fun s => rfl)
  have hx : ¬((c ≠ '!' ∨ full = true) ∧ getattrD fields att ≠ Value.vnone) := by
    intro hcontra
    exact hcontra.2 habs
  have hcp := (hconcl (att, m) hmem c hc).2 hx
  exact ⟨hcp.2, fields', hload, hcp.1⟩

/-- Witness for C6 at `exX6`, whose declared numpy attribute `opt` holds the
absence marker: its entry name is absent from the archive and the round trip
restores the absence marker. -/
theorem claim_C6_witness :
    zipLookup exAr6 ("opt" ++ "." ++ stripBang "numpy") = none ∧
    ∃ fields', loadZip 6 exAr6 "" = Except.ok (Value.vobj "T6" fields') ∧
      getattrOpt fields' "opt" = some Value.vnone := by
  have hgood : GoodObj true exX6 := by
    apply GoodObj.mk true "T6" [("_save_attributes", exSa6), ("opt", Value.vnone)]
      exSa6 [("_save_attributes", "json"), ("opt", "numpy")] rfl rfl
      (by decide) (by decide) (by decide)
    intro p hp hm
    fin_cases hp <;> exact absurd hm (by decide)
  exact claim_C6_optional_omission 6 "T6"
    [("_save_attributes", exSa6), ("opt", Value.vnone)] true exAr6 exSa6
    [("_save_attributes", "json"), ("opt", "numpy")] "opt" "numpy" 'y'
    rfl rfl hgood (by decide) rfl (by decide) rfl rfl

/-- C7: executing save never mutates the source object.  The body of
`save`/`save_zip` contains no assignment to any attribute of `self` (it only
reads attributes and writes zip entries), so the state-threaded form of
`save_zip` returns the object component unchanged for every input and save
mode. -/
theorem claim_C7_save_no_mutation (n : Nat) (tid : String)
    (fields : List (String × Value)) (full : Bool) (folder : String) :
    (saveZipSt n tid fields full folder).1 = (tid, fields) := rfl

/-- Counterexample to C8: for a declared NESTED-OBJECT attribute the object
does not possess, save indeed writes nothing and raises no error, but the
save/load round trip then FAILS instead of producing the attribute with the
absence-marker value, because load unconditionally recurses into declared
nested objects. -/
theorem claim_C8_counterexample :
    save 6 exX4 true = Except.ok exAr4 ∧
    load 6 exAr4 = Except.error (PErr.keyError "child.mushroom/config") :=
  ⟨rfl, rfl⟩

/-- C8 as amended: save treats a declared attribute the object does not
possess exactly as if its value were the absence marker (same result as on
the object with that attribute set to the absence marker — no entry, no
error, even for an unregistered codec name); after a save/load round trip a
non-nested such attribute exists on the loaded object with the
absence-marker value, while a nested-object one makes the load fail (see
the counterexample). -/
theorem claim_C8_amended :
    (∀ (jf : Nat) (rs : SaveRec) (fields : List (String × Value)) (full : Bool)
      (folder att m : String),
      getattrOpt fields att = none →
      saveOneAttrW jf rs fields full folder att m =
        saveOneAttrW jf rs (setattr fields att Value.vnone) full folder att m) ∧
    (∀ (n : Nat) (tid : String) (fields : List (String × Value)) (full : Bool)
      (ar : Archive) (sa : Value) (attrs : List (String × String)) (att m : String)
      (c : Char),
      getattrOpt fields "_save_attributes" = some sa →
      asStrDict sa = some attrs →
      GoodObj full (Value.vobj tid fields) →
      (att, m) ∈ attrs →
      strLast m = some c →
      stripBang m ≠ "mushroom" →
      getattrOpt fields att = none →
      saveZip n tid fields full "" = Except.ok ar →
      ∃ fields', loadZip n ar "" = Except.ok (Value.vobj tid fields') ∧
        getattrOpt fields' att = some Value.vnone) := by
  constructor
  · intro jf rs fields full folder att m hnone
    have h1 : getattrD fields att = Value.vnone := by
      unfold getattrD
      rw [show getattrOpt fields att = none from hnone]
      rfl
    have h2 : getattrD (setattr fields att Value.vnone) att = Value.vnone := by
      unfold getattrD getattrOpt setattr
      rw [dget_dset_self]
      rfl
    unfold saveOneAttrW
    cases hl : strLast m with
    | none => rfl
    | some c =>
      dsimp only
      rw [h1, h2]
  · intro n tid fields full ar sa attrs att m c hsa hat hgood hmem hc hnm hnone hsave
    obtain ⟨fields', hload, hconcl⟩ := loadSaveMaster n tid fields full "" ar ar sa attrs
      hsave hsa hat hgood (fun s => rfl)
    have habs : getattrD fields att = Value.vnone := by
      unfold getattrD
      rw [show getattrOpt fields att = none from hnone]
      rfl
    have hx : ¬((c ≠ '!' ∨ full = true) ∧ getattrD fields att ≠ Value.vnone) := by
      intro hcontra
      exact hcontra.2 habs
    have hcp := (hconcl (att, m) hmem c hc).2 hx
    exact ⟨fields', hload, hcp.1⟩

/-- Witness for the amended C8 at `exX3`, which declares `foo` (codec
`unknowncodec`) without possessing it: saving behaves as with an explicit
absence marker, and the round trip restores `foo` as the absence marker. -/
theorem claim_C8_witness :
    saveOneAttrW 3 (saveZip 3) [("_save_attributes", exSa3)] true "" "foo" "unknowncodec" =
      saveOneAttrW 3 (saveZip 3) (setattr [("_save_attributes", exSa3)] "foo" Value.vnone)
        true "" "foo" "unknowncodec" ∧
    ∃ fields', loadZip 6 exAr3 "" = Except.ok (Value.vobj "T3" fields') ∧
      getattrOpt fields' "foo" = some Value.vnone := by
  have hgood : GoodObj true exX3 := by
    apply GoodObj.mk true "T3" [("_save_attributes", exSa3)]
      exSa3 [("_save_attributes", "json"), ("foo", "unknowncodec")] rfl rfl
      (by decide) (by decide) (by decide)
    intro p hp hm
    fin_cases hp <;> exact absurd hm (by decide)
  constructor
  · exact claim_C8_amended.1 3 (saveZip 3) [("_save_attributes", exSa3)] true ""
      "foo" "unknowncodec" rfl
  · exact claim_C8_amended.2 6 "T3" [("_save_attributes", exSa3)] true exAr3 exSa3
      [("_save_attributes", "json"), ("foo", "unknowncodec")] "foo" "unknowncodec"
      'c' rfl rfl hgood (by decide) rfl (by decide) rfl rfl

theorem dget_isSome_foldl_dset (d : List (String × String))
    (st : List (String × String)) (k : String)
    (h : (dget st k).isSome = true) :
    (dget (d.foldl (fun b p => dset b p.1 p.2) st) k).isSome = true := by
  induction d generalizing st with
  | nil => exact h
  | cons p rest ih =>
    apply ih
    by_cases hk : p.1 = k
    · rw [← hk, dget_dset_self]
      rfl
    · rw [dget_dset_ne st p.1 k p.2 (fun hh => hk hh.symm)]
      exact h

theorem runDecls_key_aux (rest : List (List (String × String)))
    (st : List (String × String))
    (h : (dget st "_save_attributes").isSome = true) :
    ∃ mfin, rest.foldl (fun st d => some (addSaveAttr st d)) (some st) = some mfin ∧
      (dget mfin "_save_attributes").isSome = true := by
  induction rest generalizing st with
  | nil => exact ⟨st, rfl, h⟩
  | cons d rest2 ih =>
    apply ih
    unfold addSaveAttr
    exact dget_isSome_foldl_dset d st "_save_attributes" h

/-- C9: the attribute-declaration mechanism.  The first `_add_save_attr` call
seeds the mapping with the reserved entry `_save_attributes ↦ json` (the
structured-config codec) and then merges the given declarations; every
subsequent call only adds or overwrites entries (a key present before a call
is present after it, so nothing is ever removed); consequently after any
non-empty sequence of declaration calls the mapping contains the reserved
key `_save_attributes`. -/
theorem claim_C9_declaration_registry :
    (∀ d : List (String × String),
      addSaveAttr none d =
        d.foldl (fun b p => dset b p.1 p.2) [("_save_attributes", "json")]) ∧
    (∀ (st d : List (String × String)) (k : String),
      (dget st k).isSome = true →
      (dget (addSaveAttr (some st) d) k).isSome = true) ∧
    (∀ calls : List (List (String × String)), calls ≠ [] →
      ∃ mfin, runDecls calls = some mfin ∧
        (dget mfin "_save_attributes").isSome = true) := by
  refine ⟨fun d => rfl, ?_, ?_⟩
  · intro st d k h
    unfold addSaveAttr
    exact dget_isSome_foldl_dset d st k h
  · intro calls hne
    cases calls with
    | nil => exact absurd rfl hne
    | cons d rest =>
      unfold runDecls
      rw [List.foldl_cons]
      apply runDecls_key_aux
      unfold addSaveAttr
      apply dget_isSome_foldl_dset
      rfl

/-- Witness for C9 at a concrete declaration sequence. -/
theorem claim_C9_witness :
    ∃ mfin, runDecls [[("w", "numpy")], [("child", "mushroom")]] = some mfin ∧
      (dget mfin "_save_attributes").isSome = true :=
  claim_C9_declaration_registry.2.2 [[("w", "numpy")], [("child", "mushroom")]]
    (by simp)

/-- C10: save and load compute the same archive entry name for a declared
attribute — both strip the trailing full-save-only marker from the codec
spec before forming `att ++ "." ++ codec` (under the folder prefix) — so an
attribute written by save is found by load under exactly the name load looks
up (and decodes back to the written value); moreover no registered codec
name contains the marker, so the marker never reaches an entry name through
the codec part. -/
theorem claim_C10_entry_names :
    (∀ (jf k : Nat) (rs : SaveRec) (fields : List (String × Value)) (full : Bool)
      (folder att m : String) (c : Char) (a : Archive),
      strLast m = some c → (c ≠ '!' ∨ full = true) →
      (stripBang m = "pickle" ∨ stripBang m = "numpy" ∨ stripBang m = "torch" ∨
        stripBang m = "json") →
      getattrD fields att ≠ Value.vnone →
      saveOneAttrW jf rs fields full folder att m = Except.ok a →
      ∃ d, a = [(appendFolder folder (att ++ "." ++ stripBang m), d)] ∧
        loadAttrsW (loadZip k) a folder [(att, m)] [] =
          Except.ok [(att, getattrD fields att)]) ∧
    (∀ m' ∈ saveMethods, ¬ '!' ∈ m'.data) := by
  constructor
  · intro jf k rs fields full folder att m c a hc hproc hm4 hpres hsave
    obtain ⟨c', hc', hcase⟩ := saveOneAttrW_ok_inv jf rs fields full folder att m a hsave
    rw [hc] at hc'
    injection hc' with hcc
    subst hcc
    rcases hcase with ⟨habs, _⟩ | ⟨_, _, _, hsm⟩
    · rcases habs with hnp | hvn
      · exact absurd hproc hnp
      · exact absurd hvn hpres
    · obtain ⟨d, hAeq, hdec⟩ := dataCodecRoundTrip jf rs (stripBang m)
        (att ++ "." ++ stripBang m) (getattrD fields att) full folder a hm4 hsm
      refine ⟨d, hAeq, ?_⟩
      have hlook : zipLookup a (appendFolder folder (att ++ "." ++ stripBang m)) =
          some d := by
        rw [hAeq]
        exact zipLookup_cons_self _ _ _
      have hhas := zipHas_true_of_lookup _ _ _ hlook
      have hreg : loadMethods.contains (stripBang m) = true := by
        rcases hm4 with h5 | h5 | h5 | h5 <;> rw [h5] <;> decide
      rw [loadAttrsW_cons_found (loadZip k) a folder att m [] [] c
        (getattrD fields att) hc (Or.inl hhas) hreg (hdec (loadZip k) a hlook)]
      rfl
  · decide

/-- Witness for C10 at a numpy attribute: the entry is written under
`w.numpy` and load finds and restores it under the same name. -/
theorem claim_C10_witness :
    ∃ d, [(("w.numpy" : String), EntryData.np [1, 2])] =
        [(appendFolder "" ("w" ++ "." ++ stripBang "numpy"), d)] ∧
      loadAttrsW (loadZip 3) [(("w.numpy" : String), EntryData.np [1, 2])]
        "" [("w", "numpy")] [] =
        Except.ok [("w", getattrD [("_save_attributes", exSa1),
          ("w", Value.vnumpy [1, 2])] "w")] :=
  claim_C10_entry_names.1 3 3 (saveZip 3)
    [("_save_attributes", exSa1), ("w", Value.vnumpy [1, 2])] true "" "w" "numpy"
    'y' [("w.numpy", EntryData.np [1, 2])] rfl (by decide)
    (Or.inr (Or.inl (by decide))) (fun h => Value.noConfusion h) rfl

end MushroomSer
